import Mathlib

set_option maxRecDepth 20000

/-!
Verification development for the session-digest builder and time-windowed
changelog pipeline of `ai_code_sessions` (`src/ai_code_sessions/__init__.py`).

The Python code is shallowly embedded: pure helper functions become Lean
functions on `String` / `List Char`; the digest builder's imperative loops
become folds over explicit state; the changelog pipeline's file ledger
becomes an explicit state record.  Python `datetime` parsing and the sha256
hash are foreign library calls and are abstracted as function parameters;
everything else is translated from the source.

Strings are treated as sequences of characters; `str.lower`/`str.strip`
are modelled for ASCII text (which is what every claim exercises).
-/

/-- Char-list version of Python string prefix test. -/
def startsWithL : List Char → List Char → Bool
  | [], _ => true
  | _ :: _, [] => false
  | a :: as, b :: bs => a == b && startsWithL as bs

/-- Char-list version of Python `needle in hay` (substring containment). -/
def hasSubL (needle : List Char) : List Char → Bool
  | [] => startsWithL needle []
  | c :: rest => startsWithL needle (c :: rest) || hasSubL needle rest

/-- Python `needle in hay` on strings. -/
def strContainsSub (hay needle : String) : Bool :=
  hasSubL needle.data hay.data

/-- Python `str.startswith` on strings. -/
def strStartsWith (s pre : String) : Bool :=
  startsWithL pre.data s.data

/-- Python `str.lower` for ASCII characters. -/
def pyCharLower (c : Char) : Char :=
  if 'A' ≤ c ∧ c ≤ 'Z' then Char.ofNat (c.toNat + 32) else c

/-- Python `str.lower` (ASCII model). -/
def pyLower (s : String) : String :=
  ⟨s.data.map pyCharLower⟩

/-- Python `str.strip` with no argument (whitespace trim). -/
def pyStrip (s : String) : String :=
  ⟨((s.data.dropWhile Char.isWhitespace).reverse.dropWhile Char.isWhitespace).reverse⟩

/-- Python `str.lstrip`. -/
def pyLStrip (s : String) : String :=
  ⟨s.data.dropWhile Char.isWhitespace⟩

/-- Python `str.rstrip`. -/
def pyRStrip (s : String) : String :=
  ⟨(s.data.reverse.dropWhile Char.isWhitespace).reverse⟩

/-- Python `s[:k]` for a nonnegative slice bound. -/
def pyTake (s : String) (k : Nat) : String :=
  ⟨s.data.take k⟩

/-- Python `s[-(k):]` for a positive `k`: the last `k` characters. -/
def pyTakeLast (s : String) (k : Nat) : String :=
  ⟨s.data.drop (s.data.length - k)⟩

/-- Last `k` elements of a list, Python `l[-k:]` for `k > 0`. -/
def takeLastL {α : Type} (l : List α) (k : Nat) : List α :=
  l.drop (l.length - k)

/-- Python `int(text)`: optional sign then decimal digits (the underscore
forms never arise here).  Returns `none` where Python raises `ValueError`. -/
def pyIntParse (s : String) : Option Int :=
  let t := pyStrip s
  let core : List Char :=
    match t.data with
    | '+' :: rest => rest
    | '-' :: rest => rest
    | other => other
  if core.isEmpty ∨ ¬ core.all Char.isDigit then none
  else
    let mag : Nat := core.foldl (fun acc c => acc * 10 + (c.toNat - 48)) 0
    match t.data with
    | '-' :: _ => some (-(mag : Int))
    | _ => some (mag : Int)

/-!
Mini regex fragments.  The source compiles several patterns from raw Python
strings written with doubled backslashes (for example `r"\\bpytest\\b"` and
`r"Process exited with code (\\d+)"`), so in the compiled regex `\\` matches
one literal backslash character and the following `b`, `s+` or `d+` are
ordinary character matches.  Only three constructs occur: literal runs,
`s+` (one or more letters `s`), and `.*` (any run of non-newline
characters); they are embedded as a token list with full backtracking.
-/

/-- Token of the patterns occurring in the source (after Python string
unescaping): a literal run, `s+`, or `.*`. -/
inductive TTok where
  | lit (s : String)
  | sPlus
  | anyStar
deriving DecidableEq

/-- Backtracking for `s+` after the first mandatory `s`: try the rest of the
pattern here, or consume one more `s`. -/
def sRunAux (f : List Char → Bool) : List Char → Bool
  | [] => f []
  | c :: rest => f (c :: rest) || (c == 's' && sRunAux f rest)

/-- Backtracking for `.*`: try the rest of the pattern here, or consume one
more non-newline character. -/
def anyStarAux (f : List Char → Bool) : List Char → Bool
  | [] => f []
  | c :: rest => f (c :: rest) || (c != '\n' && anyStarAux f rest)

/-- Match a token list at the start of the character list. -/
def matchToks : List TTok → List Char → Bool
  | [], _ => true
  | .lit s :: ts, cs => startsWithL s.data cs && matchToks ts (cs.drop s.data.length)
  | .sPlus :: ts, cs =>
      match cs with
      | 's' :: rest => sRunAux (matchToks ts) rest
      | _ => false
  | .anyStar :: ts, cs => anyStarAux (matchToks ts) cs

/-- Python `re.search`: match the token list at some position. -/
def searchToks (toks : List TTok) : List Char → Bool
  | [] => matchToks toks []
  | c :: rest => matchToks toks (c :: rest) || searchToks toks rest

/-- Python `re.search(pattern, s) is not None` for an embedded pattern. -/
def re_search (toks : List TTok) (s : String) : Bool :=
  searchToks toks s.data

/-- Leftmost match of `Process exited with code (\\d+)` (the regex compiled
from the doubled-backslash raw string in the source): the literal text, then
one literal backslash, then one or more letters `d`; the captured group is
the backslash plus the `d` run. -/
def exec_code_capture (marker : List Char) : List Char → Option String
  | [] => none
  | c :: rest =>
      if startsWithL marker (c :: rest) then
        match (c :: rest).drop marker.length with
        | '\\' :: r2 =>
            let ds := r2.takeWhile (· == 'd')
            if ds.isEmpty then exec_code_capture marker rest
            else some ⟨'\\' :: ds⟩
        | _ => exec_code_capture marker rest
      else exec_code_capture marker rest

/-- Embedding of `_infer_exit_code_from_exec_output`: `int(...)` on the
captured group (which always starts with a backslash) raises `ValueError`,
mapped to `none`. -/
def infer_exit_code_from_exec_output (output_text : String) : Option Int :=
  match exec_code_capture "Process exited with code ".data output_text.data with
  | none => none
  | some g => pyIntParse g

/-- Embedding of `_infer_is_error_from_exec_output`. -/
def infer_is_error_from_exec_output (output_text : String) : Bool :=
  match exec_code_capture "Process exited with code ".data output_text.data with
  | none => false
  | some g =>
      match pyIntParse g with
      | none => false
      | some n => n ≠ 0

/-- The nine test-runner patterns of `_looks_like_test_command`, as compiled
from their doubled-backslash raw strings. -/
def test_command_patterns : List (List TTok) :=
  [ [.lit "\\bpytest\\b"],
    [.lit "\\buv\\", .sPlus, .lit "run\\b", .anyStar, .lit "\\bpytest\\b"],
    [.lit "\\bnpm\\", .sPlus, .lit "test\\b"],
    [.lit "\\byarn\\", .sPlus, .lit "test\\b"],
    [.lit "\\bpnpm\\", .sPlus, .lit "test\\b"],
    [.lit "\\bgo\\", .sPlus, .lit "test\\b"],
    [.lit "\\bmvn\\b", .anyStar, .lit "\\btest\\b"],
    [.lit "\\bgradle\\b", .anyStar, .lit "\\btest\\b"],
    [.lit "\\brake\\", .sPlus, .lit "test\\b"] ]

/-- Embedding of `_looks_like_test_command`. -/
def looks_like_test_command (cmd : String) : Bool :=
  let c := pyStrip cmd
  if c == "" then false
  else test_command_patterns.any (fun p => re_search p c)

/-- Embedding of `_looks_like_usage_limit_error`.  The last disjunct is
`re.search(r"\\b429\\b", lower)`: one literal backslash, `b429`, one literal
backslash, `b`. -/
def looks_like_usage_limit_error (error_text : String) : Bool :=
  if error_text == "" then false
  else
    let lower := pyLower error_text
    strContainsSub lower "usage_limit_reached" ||
    strContainsSub lower "you\x27ve hit your usage limit" ||
    strContainsSub lower "rate_limit" ||
    strContainsSub lower "rate limit" ||
    strContainsSub lower "too many requests" ||
    re_search [.lit "\\b429\\b"] lower

/-- Embedding of `_looks_like_context_window_error`. -/
def looks_like_context_window_error (error_text : String) : Bool :=
  if error_text == "" then false
  else
    let lower := pyLower error_text
    strContainsSub lower "argument list too long" ||
    (strContainsSub lower "context window" &&
      (strContainsSub lower "ran out of room" ||
       strContainsSub lower "start a new conversation")) ||
    (strContainsSub lower "context length" &&
      (strContainsSub lower "exceeded" || strContainsSub lower "too long")) ||
    (strContainsSub lower "prompt" && strContainsSub lower "too long")

/-!
Commit detection.  `COMMIT_PATTERN` is the regex that matches an opening
square bracket, one or more word, hyphen or slash characters (the branch),
a space, a captured run of at least seven lowercase-hex characters (the
hash), a closing square bracket, a space, and a lazily captured run of at
least one non-newline character (the message) ending at a newline or at the
end of the input.  This pattern is written with single backslashes in the
source, so it is a genuine pattern.  Because its character classes exclude
their follower characters, the greedy quantifiers need no backtracking:
the branch run and the hash run are maximal runs, and the lazy message
capture stops at the first newline.  `finditer` scans left to right and
resumes after each match.
-/

/-- Character class of word, hyphen and slash characters (ASCII model of
the regex word class). -/
def isBranchChar (c : Char) : Bool :=
  c.isAlphanum || c == '_' || c == '-' || c == '/'

/-- Character class `[a-f0-9]`. -/
def isHexLower (c : Char) : Bool :=
  ('a' ≤ c && c ≤ 'f') || c.isDigit

/-- Commit fact `{hash, message}` extracted by `COMMIT_PATTERN`. -/
structure Commit where
  hash : String
  message : String
deriving DecidableEq

/-- Attempt to match `COMMIT_PATTERN` at the head of the character list;
on success return the commit and the remainder after the match. -/
def tryCommitAt : List Char → Option (Commit × List Char)
  | '[' :: rest =>
      let bran := rest.takeWhile isBranchChar
      if bran.isEmpty then none
      else
        match rest.drop bran.length with
        | ' ' :: r2 =>
            let hx := r2.takeWhile isHexLower
            if hx.length < 7 then none
            else
              match r2.drop hx.length with
              | ']' :: ' ' :: r3 =>
                  let msg := r3.takeWhile (· ≠ '\n')
                  if msg.isEmpty then none
                  else
                    let r4 := r3.drop msg.length
                    let r5 := match r4 with
                      | '\n' :: r => r
                      | other => other
                    some (⟨⟨hx⟩, ⟨msg⟩⟩, r5)
              | _ => none
        | _ => none
  | _ => none

/-- Scan for all non-overlapping `COMMIT_PATTERN` matches (`finditer`); the
fuel argument (instantiated with the input length) only serves termination,
since every step consumes at least one character. -/
def commitScanF : Nat → List Char → List Commit
  | 0, _ => []
  | _ + 1, [] => []
  | n + 1, c :: rest =>
      match tryCommitAt (c :: rest) with
      | some (cm, r5) => cm :: commitScanF n r5
      | none => commitScanF n rest

/-- Embedding of `_extract_commits_from_text`. -/
def extract_commits_from_text (text : String) : List Commit :=
  commitScanF text.data.length text.data

/-!
Truncation helpers.
-/

/-- Python slice `value[:k]` for an `Int` bound (a negative bound counts
from the end, as in `_truncate_text` when `max_chars < 3`). -/
def pySliceTo (s : String) (k : Int) : String :=
  if 0 ≤ k then ⟨s.data.take k.toNat⟩
  else ⟨s.data.take (s.data.length - (-k).toNat)⟩

/-- Embedding of `_truncate_text`. -/
def truncate_text (value : String) (max_chars : Int) : String :=
  if max_chars ≤ 0 then ""
  else
    let v := pyStrip value
    if (v.data.length : Int) ≤ max_chars then v
    else pyRStrip (pySliceTo v (max_chars - 3)) ++ "..."

/-- Embedding of `_truncate_text_tail`. -/
def truncate_text_tail (value : String) (max_chars : Int) : String :=
  if max_chars ≤ 0 then ""
  else
    let v := pyStrip value
    if (v.data.length : Int) ≤ max_chars then v
    else "..." ++ pyLStrip ⟨v.data.drop (v.data.length - (max_chars - 3).toNat)⟩

/-- Embedding of `_truncate_text_middle` (glue `"\n...\n"` has length 5). -/
def truncate_text_middle (value : String) (max_chars : Int) : String :=
  if max_chars ≤ 0 then ""
  else
    let v := pyStrip value
    if (v.data.length : Int) ≤ max_chars then v
    else if max_chars ≤ 15 then truncate_text value max_chars
    else
      let head_len := ((max_chars - 5) / 2).toNat
      let tail_len := (max_chars - 5).toNat - head_len
      pyRStrip ⟨v.data.take head_len⟩ ++ "\n...\n" ++
        pyLStrip ⟨v.data.drop (v.data.length - tail_len)⟩

/-!
Apply-patch payload parsing (`_parse_apply_patch_file_ops`).  The Python
function accumulates `set`s for created/modified/deleted; sets are modelled
as accumulation lists, deduplicated and sorted where the source calls
`sorted(...)` on them.
-/

/-- Moved-file record `{from, to}`. -/
structure Moved where
  fromPath : String
  toPath : String
deriving DecidableEq

/-- Result of `_parse_apply_patch_file_ops`: accumulation lists standing for
the created/modified/deleted sets, plus the ordered move list. -/
structure PatchOps where
  created : List String
  modified : List String
  deleted : List String
  moved : List Moved
deriving DecidableEq

/-- Python `str.splitlines` for `\n`-separated text (the carriage-return
variants are absorbed by the per-line `strip`). -/
def splitLinesNL (s : String) : List String :=
  (s.data.splitOn '\n').map fun cs => ⟨cs⟩

/-- Dispatch one (already stripped) patch line, updating the current path
and the accumulated operations. -/
def patchLineStep (acc : PatchOps × String) (line : String) : PatchOps × String :=
  if strStartsWith line "*** Add File: " then
    let p := pyStrip ⟨line.data.drop "*** Add File: ".data.length⟩
    if p ≠ "" then ({ acc.1 with created := acc.1.created ++ [p] }, p) else (acc.1, p)
  else if strStartsWith line "*** Update File: " then
    let p := pyStrip ⟨line.data.drop "*** Update File: ".data.length⟩
    if p ≠ "" then ({ acc.1 with modified := acc.1.modified ++ [p] }, p) else (acc.1, p)
  else if strStartsWith line "*** Delete File: " then
    let p := pyStrip ⟨line.data.drop "*** Delete File: ".data.length⟩
    if p ≠ "" then ({ acc.1 with deleted := acc.1.deleted ++ [p] }, p) else (acc.1, p)
  else if strStartsWith line "*** Move to: " then
    let d := pyStrip ⟨line.data.drop "*** Move to: ".data.length⟩
    if acc.2 ≠ "" ∧ d ≠ "" then ({ acc.1 with moved := acc.1.moved ++ [⟨acc.2, d⟩] }, acc.2)
    else (acc.1, acc.2)
  else (acc.1, acc.2)

/-- Embedding of `_parse_apply_patch_file_ops`. -/
def parse_apply_patch_file_ops (patch_text : String) : PatchOps :=
  if pyStrip patch_text = "" then ⟨[], [], [], []⟩
  else
    ((splitLinesNL patch_text).foldl
      (fun acc raw => patchLineStep acc (pyStrip raw)) (⟨[], [], [], []⟩, "")).1

/-!
Tool-input model.  Tool inputs are loosely typed Python values; the digest
builder only ever distinguishes string values under known keys, raw string
inputs, and a missing input, so values are modelled as strings or an opaque
non-string marker, and inputs as a key/value list, a raw string, or absent.
-/

/-- Value in a tool-input dict: a string, or any non-string value. -/
inductive IVal where
  | s (v : String)
  | other
deriving DecidableEq

/-- Tool input: structured dict, raw string, or missing (`None`). -/
inductive TInput where
  | idict (kvs : List (String × IVal))
  | istr (v : String)
  | inone
deriving DecidableEq

/-- Python `dict.get` on the key/value list (first binding wins). -/
def dictGet (kvs : List (String × IVal)) (key : String) : Option IVal :=
  (kvs.find? (fun kv => kv.1 == key)).map (·.2)

/-- Python `str.endswith`. -/
def strEndsWith (s suf : String) : Bool :=
  startsWithL suf.data.reverse s.data.reverse

/-- Embedding of `_extract_path_from_tool_input`. -/
def extract_path_from_tool_input : TInput → Option String
  | .idict kvs =>
      ["path", "file_path", "filepath", "filename"].findSome? fun k =>
        match dictGet kvs k with
        | some (.s v) => if pyStrip v == "" then none else some (pyStrip v)
        | _ => none
  | _ => none

/-- Embedding of `_extract_cmd_from_tool_input`. -/
def extract_cmd_from_tool_input : TInput → Option String
  | .idict kvs =>
      ["cmd", "command"].findSome? fun k =>
        match dictGet kvs k with
        | some (.s v) => if pyStrip v == "" then none else some (pyStrip v)
        | _ => none
  | _ => none

/-- Embedding of `_extract_patch_text`. -/
def extract_patch_text : TInput → Option String
  | .istr v => some v
  | .idict kvs =>
      ["patch", "arguments"].findSome? fun k =>
        match dictGet kvs k with
        | some (.s v) => if pyStrip v == "" then none else some v
        | _ => none
  | .inone => none

/-- Embedding of `_tool_name_is_command`. -/
def tool_name_is_command (tool_name : String) : Bool :=
  tool_name == "bash" || tool_name == "shell" || tool_name == "terminal" ||
  strEndsWith tool_name ".exec_command" || strEndsWith tool_name "exec_command"

/-- Embedding of `_tool_name_is_apply_patch`. -/
def tool_name_is_apply_patch (tool_name : String) : Bool :=
  strEndsWith tool_name ".apply_patch" || strEndsWith tool_name "apply_patch"

/-- Embedding of `_summarize_tool_input` (`max_chars = 4000`): string values
are truncated; non-string values pass through (nested dict/list values,
which the source re-serializes, do not occur in the claims). -/
def summarize_tool_input : TInput → TInput
  | .istr v => .istr (truncate_text v 4000)
  | .idict kvs =>
      .idict (kvs.map fun kv =>
        match kv.2 with
        | .s v => (kv.1, .s (truncate_text v 4000))
        | .other => (kv.1, .other))
  | .inone => .inone

/-!
Normalized events and the digest record, as assembled by
`_build_changelog_digest`.
-/

/-- Content block of a normalized message. -/
inductive CBlock where
  | text (t : String)
  | thinking (t : String)
  | toolUse (name : String) (input : TInput)
  | toolResult (content : String) (isErr : Option Bool)
deriving DecidableEq

/-- Normalized logline entry: type tag, timestamp string, message content. -/
structure SEntry where
  etype : String
  timestamp : String
  content : List CBlock
deriving DecidableEq

/-- Python `" ".join` and friends. -/
def joinSepStr (sep : String) : List String → String
  | [] => ""
  | [x] => x
  | x :: xs => x ++ sep ++ joinSepStr sep xs

/-- Embedding of `extract_text_from_content` for block-list content. -/
def extract_text_from_content (content : List CBlock) : String :=
  pyStrip (joinSepStr " " (content.filterMap fun b =>
    match b with
    | .text t => if t == "" then none else some t
    | _ => none))

/-- Embedding of `_extract_text_blocks_from_message`. -/
def extract_text_blocks_from_message (content : List CBlock) : List String :=
  content.filterMap fun b =>
    match b with
    | .text t => if pyStrip t == "" then none else some (pyStrip t)
    | _ => none

/-- Embedding of `_extract_tool_blocks_from_message`. -/
def extract_tool_blocks_from_message (content : List CBlock) : List CBlock :=
  content.filter fun b =>
    match b with
    | .toolUse _ _ => true
    | .toolResult _ _ => true
    | _ => false

/-- Attached tool result (`result_obj` in the source): key order
timestamp, is_error, exit_code, content_snippet. -/
structure ResultObj where
  timestamp : String
  isErr : Bool
  exitCode : Option Int
  contentSnippet : Option String
deriving DecidableEq

/-- Tool-call record opened for each `tool_use` block. -/
structure ToolCall where
  timestamp : String
  tool : String
  input : TInput
  result : Option ResultObj
  patchSnippet : Option String
  patchFiles : Option (List String)
  pathHint : Option String
  cmd : Option String
  isTest : Bool
deriving DecidableEq

/-- Prompt reference `{timestamp, text}`. -/
structure PromptRef where
  timestamp : String
  text : String
deriving DecidableEq

/-- Test outcome `{cmd, result}`. -/
structure TestRec where
  cmd : String
  result : String
deriving DecidableEq

/-- Touched-files record of the digest. -/
structure Touched where
  created : List String
  modified : List String
  deleted : List String
  moved : List Moved
deriving DecidableEq

/-- Digest returned by `_build_changelog_digest` (`schema_version` is the
constant 1 and only appears in serialization). -/
structure Digest where
  sourceFormat : String
  windowStart : String
  windowEnd : String
  priorUserPrompts : List PromptRef
  userPrompts : List PromptRef
  assistantText : List PromptRef
  toolCalls : List ToolCall
  toolErrors : List ResultObj
  touchedFiles : Touched
  tests : List TestRec
  commits : List Commit
deriving DecidableEq

/-- Lexicographic order on character lists by code point (Python string
comparison). -/
def lexLe : List Char → List Char → Bool
  | [], _ => true
  | _ :: _, [] => false
  | a :: as, b :: bs =>
      if a.toNat < b.toNat then true
      else if a == b then lexLe as bs
      else false

/-- Python `a <= b` on strings. -/
def strLe (a b : String) : Bool :=
  lexLe a.data b.data

/-- Python `sorted(set(...))` for string accumulation lists: drop duplicates,
then sort ascending. -/
def sortedDedup (l : List String) : List String :=
  l.dedup.insertionSort (fun a b => strLe a b = true)

/-- Extraction state of the within-window loop of `_build_changelog_digest`.
The call list is accumulated in reverse: its head is the call the Python
variable `pending_tool_call` points at (the most recently opened call). -/
structure ExtSt where
  userPrompts : List PromptRef
  assistantText : List PromptRef
  callsRev : List ToolCall
  toolErrors : List ResultObj
  tests : List TestRec
  commits : List Commit
  createdAcc : List String
  modifiedAcc : List String
  deletedAcc : List String
  movedAcc : List Moved
deriving DecidableEq

/-- Empty extraction state. -/
def ExtSt.empty : ExtSt := ⟨[], [], [], [], [], [], [], [], [], []⟩

/-- Move-pair path collection for `patch_files` (trimmed non-empty "from"
and "to" values, in move order). -/
def movedFilesOf (moved : List Moved) : List String :=
  moved.foldl (fun acc mv =>
    acc ++ (if pyStrip mv.fromPath ≠ "" then [pyStrip mv.fromPath] else []) ++
      (if pyStrip mv.toPath ≠ "" then [pyStrip mv.toPath] else [])) []

/-- Tool-name defaulting `block.get("name") or "unknown"`. -/
def toolNameOf (name : String) : String :=
  if name == "" then "unknown" else name

/-- Patch handling of a `tool_use` block: the parsed file operations (empty
when the tool is not a patch tool or carries no patch text), the stored
patch snippet, and the `patch_files` value. -/
def patchDataOf (toolName : String) (input : TInput) :
    PatchOps × Option String × Option (List String) :=
  if tool_name_is_apply_patch toolName then
    match extract_patch_text input with
    | some pt =>
        if pt ≠ "" then
          let ops := parse_apply_patch_file_ops pt
          let pfList := sortedDedup
            (ops.created ++ ops.modified ++ ops.deleted ++ movedFilesOf ops.moved)
          (ops, some (truncate_text pt 12000), if pfList ≠ [] then some pfList else none)
        else (⟨[], [], [], []⟩, none, none)
    | none => (⟨[], [], [], []⟩, none, none)
  else (⟨[], [], [], []⟩, none, none)

/-- The call record opened for a `tool_use` block (the `call` dict of the
source, before any result is attached). -/
def mkToolUseCall (ts : String) (name : String) (input : TInput) : ToolCall :=
  let toolName := toolNameOf name
  let summ0 := summarize_tool_input input
  let summ :=
    if tool_name_is_apply_patch toolName then
      match summ0 with
      | .idict kvs =>
          .idict (kvs.map fun kv =>
            if kv.1 == "patch" ∨ kv.1 == "arguments" then (kv.1, .s "[omitted]") else kv)
      | o => o
    else summ0
  let pd := patchDataOf toolName input
  let cmdHint := if tool_name_is_command toolName then extract_cmd_from_tool_input input else none
  { timestamp := ts,
    tool := toolName,
    input := summ,
    result := none,
    patchSnippet := pd.2.1,
    patchFiles := pd.2.2,
    pathHint := extract_path_from_tool_input input,
    cmd := cmdHint.map (fun c => truncate_text c 500),
    isTest :=
      match cmdHint with
      | some c => looks_like_test_command c
      | none => false }

/-- Processing of one `tool_use` block of a within-window assistant entry:
accumulate the patch file operations and the path hint, and open the call
record (appending an empty operations list is the no-op of the
non-patch case). -/
def processToolUse (ts : String) (name : String) (input : TInput) (st : ExtSt) : ExtSt :=
  let ops := (patchDataOf (toolNameOf name) input).1
  let pathHint := extract_path_from_tool_input input
  { st with
      callsRev := mkToolUseCall ts name input :: st.callsRev,
      createdAcc := st.createdAcc ++ ops.created,
      modifiedAcc := st.modifiedAcc ++ ops.modified ++
        (match pathHint with
         | some p => [p]
         | none => []),
      deletedAcc := st.deletedAcc ++ ops.deleted,
      movedAcc := st.movedAcc ++ ops.moved }

/-- Truthiness of the pending call's `cmd` field. -/
def cmdTruthy : Option String → Bool
  | some c => c ≠ ""
  | none => false

/-- Error flag of a tool_result: the block's own flag, else inferred from
the exit-code marker. -/
def resultIsErr (content : String) (isErrRaw : Option Bool) : Bool :=
  match isErrRaw with
  | some b => b
  | none => infer_is_error_from_exec_output content

/-- Exit code of a tool_result: inferred from the output only when the
most recently opened call has a truthy `cmd`. -/
def resultExitCode (content : String) : List ToolCall → Option Int
  | pending :: _ =>
      if cmdTruthy pending.cmd then infer_exit_code_from_exec_output content else none
  | [] => none

/-- The `result_obj` dict of the source: error output is kept as a 4000
character tail snippet, non-error output records no snippet. -/
def mkResultObj (ts content : String) (isErrRaw : Option Bool)
    (callsRev : List ToolCall) : ResultObj :=
  let isErr := resultIsErr content isErrRaw
  ⟨ts, isErr, resultExitCode content callsRev,
    if isErr then some (truncate_text_tail content 4000) else none⟩

/-- Test outcome derivation: the block's explicit error flag means fail,
exit code 0 pass, a missing exit code unknown, any other code fail. -/
def testResultString (isErrRaw : Option Bool) (exitCode : Option Int) : String :=
  if isErrRaw = some true then "fail"
  else if exitCode = some 0 then "pass"
  else if exitCode = none then "unknown"
  else "fail"

/-- Processing of one `tool_result` block: commits are scanned, the error
flag and exit code are derived, and the result attaches to the most
recently opened call only when that call has no result yet. -/
def processToolResult (ts : String) (content : String) (isErrRaw : Option Bool) (st : ExtSt) : ExtSt :=
  let resultObj := mkResultObj ts content isErrRaw st.callsRev
  let stc := { st with commits := st.commits ++ extract_commits_from_text content }
  let st2 :=
    match stc.callsRev with
    | pending :: rest =>
        if pending.result = none then
          let st3 := { stc with callsRev := { pending with result := some resultObj } :: rest }
          if pending.isTest ∧ cmdTruthy pending.cmd then
            { st3 with tests := st3.tests ++
                [⟨pending.cmd.getD "", testResultString isErrRaw resultObj.exitCode⟩] }
          else st3
        else stc
    | [] => stc
  if resultObj.isErr then { st2 with toolErrors := st2.toolErrors ++ [resultObj] } else st2

/-- Processing of one tool block (text/thinking blocks are filtered out
before this point). -/
def processBlock (ts : String) (st : ExtSt) (b : CBlock) : ExtSt :=
  match b with
  | .toolUse name input => processToolUse ts name input st
  | .toolResult content isErrRaw => processToolResult ts content isErrRaw st
  | _ => st

/-- Processing of one within-window entry. -/
def processEntry (st : ExtSt) (entry : SEntry) : ExtSt :=
  if entry.etype == "user" then
    let text := extract_text_from_content entry.content
    if text ≠ "" ∧ ¬ strStartsWith text "Stop hook feedback:" then
      { st with userPrompts := st.userPrompts ++ [⟨entry.timestamp, truncate_text text 2000⟩] }
    else st
  else if entry.etype ≠ "assistant" then st
  else
    let st1 := (extract_text_blocks_from_message entry.content).foldl
      (fun s txt =>
        { s with
            commits := s.commits ++ extract_commits_from_text txt,
            assistantText := s.assistantText ++ [⟨entry.timestamp, truncate_text txt 2000⟩] })
      st
    (extract_tool_blocks_from_message entry.content).foldl (processBlock entry.timestamp) st1

/-- Window slicing loop of `_build_changelog_digest`: entries with a
parseable timestamp before `s` go to the first component, those between
`s` and `e` inclusive to the second, all others are dropped. -/
def sliceWindow (parseTs : String → Option Int) (s e : Int) : List SEntry → List SEntry × List SEntry
  | [] => ([], [])
  | entry :: rest =>
      let bw := sliceWindow parseTs s e rest
      match parseTs entry.timestamp with
      | none => bw
      | some t =>
          if t < s then (entry :: bw.1, bw.2)
          else if t > e then bw
          else (bw.1, entry :: bw.2)

/-- Prior-prompt collection over the before-window entries. -/
def priorPromptsOf (before : List SEntry) : List PromptRef :=
  before.foldl
    (fun acc entry =>
      if entry.etype ≠ "user" then acc
      else
        let text := extract_text_from_content entry.content
        if text = "" then acc
        else if strStartsWith text "Stop hook feedback:" then acc
        else acc ++ [⟨entry.timestamp, truncate_text text 2000⟩])
    []

/-- Embedding of `_build_changelog_digest` from the windowing loop onward.
`parseTs` stands for `_parse_iso8601` (a `datetime` library call) mapped to
a totally ordered time value; `loglines` is the parsed session data.
`none` models the `ClickException` raised for unparseable start/end. -/
def build_changelog_digest (parseTs : String → Option Int) (loglines : List SEntry)
    (source_format : String) (start endS : String) (prior_prompts : Int) : Option Digest :=
  match parseTs start, parseTs endS with
  | some s, some e =>
      let bw := sliceWindow parseTs s e loglines
      let prior0 := priorPromptsOf bw.1
      let prior := if prior_prompts > 0 then takeLastL prior0 prior_prompts.toNat else prior0
      let st := bw.2.foldl processEntry ExtSt.empty
      some
        { sourceFormat := source_format,
          windowStart := start,
          windowEnd := endS,
          priorUserPrompts := prior,
          userPrompts := st.userPrompts,
          assistantText := takeLastL st.assistantText 8,
          toolCalls := st.callsRev.reverse,
          toolErrors := st.toolErrors,
          touchedFiles :=
            ⟨sortedDedup st.createdAcc, sortedDedup st.modifiedAcc,
              sortedDedup st.deletedAcc, st.movedAcc⟩,
          tests := st.tests,
          commits := st.commits.take 50 }
  | _, _ => none

/-!
Budget reducer (`_touched_file_tokens_for_budget`, `_score_budget_text`,
`_select_budget_items`, `_slim_tool_call_for_budget`,
`_budget_changelog_digest_once`, `_budget_changelog_digest`).
-/

/-- Token accumulation of `_add_path` inside
`_touched_file_tokens_for_budget`: lower-cased basename and stem. -/
def addPathTokens (acc : List String) (path : String) : List String :=
  let p := pyStrip (pyLower ⟨path.data.map (fun c => if c == '\\' then '/' else c)⟩)
  if p = "" then acc
  else
    let base : String := ⟨(p.data.reverse.takeWhile (· ≠ '/')).reverse⟩
    if base = "" then acc
    else
      let stem : String := ⟨base.data.takeWhile (· ≠ '.')⟩
      let acc1 := acc ++ [base]
      if stem ≠ "" ∧ stem ≠ base then acc1 ++ [stem] else acc1

/-- Embedding of `_touched_file_tokens_for_budget`.  The Python set is
modelled as the deduplicated accumulation list (scoring only sums over its
members, so the set's iteration order is irrelevant). -/
def touched_file_tokens_for_budget (touched : Touched) : List String :=
  let acc0 := (touched.created ++ touched.modified ++ touched.deleted).foldl addPathTokens []
  let acc1 := touched.moved.foldl
    (fun a mv => addPathTokens (addPathTokens a mv.fromPath) mv.toPath) acc0
  acc1.dedup.filter fun t =>
    1 ≤ t.data.length && t.data.length ≤ 64 && !(t.data.contains '/')

/-- The fixed keyword vocabulary `_BUDGET_USER_KEYWORDS`. -/
def BUDGET_USER_KEYWORDS : List String :=
  ["fix", "bug", "refactor", "rename", "migrate", "upgrade", "security",
   "perf", "optimiz", "test", "failing", "error", "changelog"]

/-- Embedding of `_score_budget_text`. -/
def score_budget_text (text : String) (tokens : List String) : Int :=
  if text = "" then 0
  else
    let lower := pyLower text
    BUDGET_USER_KEYWORDS.foldl (fun sc kw => if strContainsSub lower kw then sc + 2 else sc) 0 +
      tokens.foldl (fun sc tok => if strContainsSub lower tok then sc + 5 else sc) 0

/-- Descending lexicographic comparison on `(score, index)` pairs: the order
produced by `scored.sort(key=lambda t: (t[0], t[1]), reverse=True)`.  All
indices are distinct, so this sort has a unique sorted result and the
choice of sorting algorithm is immaterial. -/
def scoredGe (a b : Int × Nat) : Bool :=
  if b.1 < a.1 then true
  else if a.1 == b.1 then decide (b.2 ≤ a.2)
  else false

/-- The always-kept index predicate of `_select_budget_items`: the two
`keep.add` loops retain indices below `min(always_head, len(items))` and at
or above `len(items) - always_tail`. -/
def budgetKeep0 (n always_head always_tail : Nat) (i : Nat) : Bool :=
  i < min always_head n || n - always_tail ≤ i

/-- `len(keep)` before the fill phase of `_select_budget_items`. -/
def budgetKeep0Count (n always_head always_tail : Nat) : Nat :=
  ((List.range n).filter (budgetKeep0 n always_head always_tail)).length

/-- The `scored` list of `_select_budget_items`: `(score_fn(item), i)` pairs
over the middle indices (those not already kept). -/
def budgetScored {α : Type} (items : List α) (always_head always_tail : Nat)
    (score_fn : α → Int) : List (Int × Nat) :=
  (items.enum.filter (fun p => !budgetKeep0 items.length always_head always_tail p.1)).map
    (fun p => (score_fn p.2, p.1))

/-- Embedding of `_select_budget_items`.  The keep set is the union of the
head-range, the tail-range and the chosen middle indices; the final
comprehension `[items[i] for i in sorted(keep)]` is the extraction of the
items at the keep indices in ascending index order, written here as a
filter over the enumerated list.  `scored.sort(key=..., reverse=True)` is
the descending `(score, index)` sort `scoredGe`; since all indices are
distinct the sorted list is unique and the algorithm choice is
immaterial. -/
def select_budget_items {α : Type} (items : List α) (max_items : Int)
    (always_head always_tail : Nat) (score_fn : α → Int) : List α :=
  if max_items ≤ 0 then []
  else if (items.length : Int) ≤ max_items then items
  else
    let n := items.length
    let remaining : Int := max_items - budgetKeep0Count n always_head always_tail
    let chosen : List Nat :=
      if remaining > 0 then
        (((budgetScored items always_head always_tail score_fn).insertionSort
            (fun a b => scoredGe a b = true)).take remaining.toNat).map (·.2)
      else []
    (items.enum.filter (fun p =>
      budgetKeep0 n always_head always_tail p.1 || chosen.contains p.1)).map (·.2)

/-- Slimmed tool call kept in the budgeted digest (key order: timestamp,
tool, cmd, is_test, path_hint, patch_files, result). -/
structure SlimCall where
  timestamp : String
  tool : String
  cmd : Option String
  isTest : Bool
  pathHint : Option String
  patchFiles : Option (List String)
  result : Option ResultObj
deriving DecidableEq

/-- Embedding of `_slim_tool_call_for_budget`. -/
def slim_tool_call_for_budget (call : ToolCall) : SlimCall :=
  let resOut : Option ResultObj :=
    match call.result with
    | some r =>
        let cs :=
          match r.contentSnippet with
          | some s => if r.isErr ∧ s ≠ "" then some s else none
          | none => none
        let ro : ResultObj := ⟨r.timestamp, r.isErr, r.exitCode, cs⟩
        if ro.isErr || ro.exitCode ≠ none then some ro else none
    | none => none
  ⟨call.timestamp, call.tool, call.cmd, call.isTest, call.pathHint, call.patchFiles, resOut⟩

/-- Budgeted digest produced by `_budget_changelog_digest_once` (the raw
digest with the four delta lists reduced and the tool calls slimmed;
serialization appends the `digest_mode: budget` marker key). -/
structure BudgetedDigest where
  sourceFormat : String
  windowStart : String
  windowEnd : String
  priorUserPrompts : List PromptRef
  userPrompts : List PromptRef
  assistantText : List PromptRef
  toolCalls : List SlimCall
  toolErrors : List ResultObj
  touchedFiles : Touched
  tests : List TestRec
  commits : List Commit
deriving DecidableEq

/-- Score of one tool call (`_call_score` inside
`_budget_changelog_digest_once`). -/
def call_score (item : ToolCall) : Int :=
  (if tool_name_is_apply_patch item.tool then 80 else 0) +
  (if item.isTest then 70 else 0) +
  (match item.cmd with
   | some c => if strStartsWith (pyStrip c) "git " then 60 else 0
   | none => 0) +
  (match item.result with
   | some r => if r.isErr then 100 else 0
   | none => 0) +
  (if item.patchFiles.getD [] ≠ [] then 15 else 0) +
  (match item.pathHint with
   | some p => if p ≠ "" then 10 else 0
   | none => 0)

/-- Embedding of `_budget_changelog_digest_once`. -/
def budget_changelog_digest_once (digest : Digest)
    (max_user_prompts max_tool_calls max_assistant_text max_tool_errors : Int) :
    BudgetedDigest :=
  let tokens := touched_file_tokens_for_budget digest.touchedFiles
  let prompts := select_budget_items digest.userPrompts max_user_prompts 5 10
    (fun p => score_budget_text p.text tokens)
  let asst :=
    if max_assistant_text > 0 then takeLastL digest.assistantText max_assistant_text.toNat
    else []
  let errs :=
    if max_tool_errors > 0 then takeLastL digest.toolErrors max_tool_errors.toNat
    else []
  let selected := select_budget_items digest.toolCalls max_tool_calls 10 10 call_score
  { sourceFormat := digest.sourceFormat,
    windowStart := digest.windowStart,
    windowEnd := digest.windowEnd,
    priorUserPrompts := digest.priorUserPrompts,
    userPrompts := prompts,
    assistantText := asst,
    toolCalls := selected.map slim_tool_call_for_budget,
    toolErrors := errs,
    touchedFiles := digest.touchedFiles,
    tests := digest.tests,
    commits := digest.commits }

/-!
Compact JSON serialization (`json.dumps(..., ensure_ascii=False)` with the
default separators: elements joined by a comma and one space, key and value
joined by a colon and one space).  Non-ASCII pass-through is modelled by
emitting the character itself; sizes are measured in characters.
-/

/-- Lowercase hex digit. -/
def hexDigit (n : Nat) : Char :=
  if n < 10 then Char.ofNat (48 + n) else Char.ofNat (87 + n)

/-- JSON escape of one character. -/
def jsonEscapeChar (c : Char) : List Char :=
  if c == '"' then ['\\', '"']
  else if c == '\\' then ['\\', '\\']
  else if c == '\n' then ['\\', 'n']
  else if c == '\t' then ['\\', 't']
  else if c == '\r' then ['\\', 'r']
  else if c.toNat == 8 then ['\\', 'b']
  else if c.toNat == 12 then ['\\', 'f']
  else if c.toNat < 32 then ['\\', 'u', '0', '0', hexDigit (c.toNat / 16), hexDigit (c.toNat % 16)]
  else [c]

/-- JSON string literal. -/
def jsonStr (s : String) : String :=
  ⟨'"' :: s.data.foldr (fun c acc => jsonEscapeChar c ++ acc) ['"']⟩

/-- JSON integer. -/
def jsonInt (n : Int) : String := n.repr

/-- JSON boolean. -/
def jsonBool (b : Bool) : String := if b then "true" else "false"

/-- JSON array from serialized elements. -/
def jsonArr (elems : List String) : String :=
  "[" ++ joinSepStr ", " elems ++ "]"

/-- JSON object from serialized key/value pairs. -/
def jsonObj (fields : List (String × String)) : String :=
  "\x7b" ++ joinSepStr ", " (fields.map fun f => jsonStr f.1 ++ ": " ++ f.2) ++ "\x7d"

/-- Serialization of a prompt reference. -/
def dumpsPrompt (p : PromptRef) : String :=
  jsonObj [("timestamp", jsonStr p.timestamp), ("text", jsonStr p.text)]

/-- Serialization of a result object. -/
def dumpsResultObj (r : ResultObj) : String :=
  jsonObj
    ([("timestamp", jsonStr r.timestamp), ("is_error", jsonBool r.isErr)] ++
      (match r.exitCode with
       | some n => [("exit_code", jsonInt n)]
       | none => []) ++
      (match r.contentSnippet with
       | some s => [("content_snippet", jsonStr s)]
       | none => []))

/-- Serialization of a slimmed tool call. -/
def dumpsSlimCall (c : SlimCall) : String :=
  jsonObj
    ([("timestamp", jsonStr c.timestamp), ("tool", jsonStr c.tool)] ++
      (match c.cmd with
       | some s => [("cmd", jsonStr s)]
       | none => []) ++
      (if c.isTest then [("is_test", jsonBool true)] else []) ++
      (match c.pathHint with
       | some s => [("path_hint", jsonStr s)]
       | none => []) ++
      (match c.patchFiles with
       | some l => [("patch_files", jsonArr (l.map jsonStr))]
       | none => []) ++
      (match c.result with
       | some r => [("result", dumpsResultObj r)]
       | none => []))

/-- Serialization of a move pair. -/
def dumpsMoved (m : Moved) : String :=
  jsonObj [("from", jsonStr m.fromPath), ("to", jsonStr m.toPath)]

/-- Serialization of the touched-files record. -/
def dumpsTouched (t : Touched) : String :=
  jsonObj
    [("created", jsonArr (t.created.map jsonStr)),
     ("modified", jsonArr (t.modified.map jsonStr)),
     ("deleted", jsonArr (t.deleted.map jsonStr)),
     ("moved", jsonArr (t.moved.map dumpsMoved))]

/-- Serialization of a test record. -/
def dumpsTest (t : TestRec) : String :=
  jsonObj [("cmd", jsonStr t.cmd), ("result", jsonStr t.result)]

/-- Serialization of a commit record. -/
def dumpsCommit (c : Commit) : String :=
  jsonObj [("hash", jsonStr c.hash), ("message", jsonStr c.message)]

/-- Serialization of a budgeted digest, key order as produced by the
source (`digest_mode` is appended after the copy). -/
def dumpsBudgetedDigest (d : BudgetedDigest) : String :=
  jsonObj
    [("schema_version", "1"),
     ("source_format", jsonStr d.sourceFormat),
     ("window", jsonObj [("start", jsonStr d.windowStart), ("end", jsonStr d.windowEnd)]),
     ("context", jsonObj [("prior_user_prompts", jsonArr (d.priorUserPrompts.map dumpsPrompt))]),
     ("delta", jsonObj
       [("user_prompts", jsonArr (d.userPrompts.map dumpsPrompt)),
        ("assistant_text", jsonArr (d.assistantText.map dumpsPrompt)),
        ("tool_calls", jsonArr (d.toolCalls.map dumpsSlimCall)),
        ("tool_errors", jsonArr (d.toolErrors.map dumpsResultObj)),
        ("touched_files", dumpsTouched d.touchedFiles),
        ("tests", jsonArr (d.tests.map dumpsTest)),
        ("commits", jsonArr (d.commits.map dumpsCommit))]),
     ("digest_mode", jsonStr "budget")]

/-- Measured size `len(json.dumps(last, ensure_ascii=False))`. -/
def budget_digest_size (d : BudgetedDigest) : Nat :=
  (dumpsBudgetedDigest d).length

/-- Sub-budget state of the shrink loop. -/
structure BudgetCaps where
  user : Int
  calls : Int
  assistant : Int
  errors : Int
deriving DecidableEq

/-- One shrink step of the loop in `_budget_changelog_digest`: the first
shrinkable knob in priority order, or `none` when every knob is at its
floor (the loop's final `break`).  All cap values stay positive, so Python
floor division by two coincides with integer division. -/
def capsStep (c : BudgetCaps) : Option BudgetCaps :=
  if c.calls > 50 then some { c with calls := max 50 (c.calls / 2) }
  else if c.user > 15 then some { c with user := max 15 (c.user - 5) }
  else if c.assistant > 2 then some { c with assistant := 2 }
  else if c.errors > 10 then some { c with errors := 10 }
  else none

/-- Application of `_budget_changelog_digest_once` at a cap state. -/
def onceAt (digest : Digest) (c : BudgetCaps) : BudgetedDigest :=
  budget_changelog_digest_once digest c.user c.calls c.assistant c.errors

/-- The `for _ in range(6)` loop of `_budget_changelog_digest`: measure,
stop when within budget, otherwise shrink one knob and recompute. -/
def budgetLoopGo (digest : Digest) (max_chars : Int) :
    Nat → BudgetedDigest → BudgetCaps → BudgetedDigest
  | 0, last, _ => last
  | n + 1, last, caps =>
      if (budget_digest_size last : Int) ≤ max_chars then last
      else
        match capsStep caps with
        | none => last
        | some caps2 => budgetLoopGo digest max_chars n (onceAt digest caps2) caps2

/-- Embedding of `_budget_changelog_digest` (the caller-facing entry point;
the knob arguments default to 30/200/4/20 at every call site). -/
def budget_changelog_digest (digest : Digest) (max_chars : Int)
    (max_user_prompts max_tool_calls max_assistant_text max_tool_errors : Int) :
    BudgetedDigest :=
  let caps0 : BudgetCaps :=
    ⟨max_user_prompts, max_tool_calls, max_assistant_text, max_tool_errors⟩
  budgetLoopGo digest max_chars 6 (onceAt digest caps0) caps0

/-!
Run identity, idempotency ledger and the changelog pipeline
(`_compute_run_id`, `_load_existing_run_ids`, `_append_jsonl`,
`_write_changelog_failure`, `_generate_and_append_changelog_entry`).
The sha256 digest behind `_compute_run_id` is a foreign library call and is
abstracted as a function parameter `computeRunId`; the evaluator subprocess
is the black-box parameter `runEval`.  Ledger files are lists of parsed
entry lines; a line never touched by the pipeline is represented by its
`run_id` field content only.
-/

/-- The hashed tuple `(tool, start, end, session_dir, source_jsonl)`. -/
structure RunKey where
  tool : String
  start : String
  endT : String
  sessionDir : String
  sourceJsonl : String
deriving DecidableEq

/-- Evaluator output object: `none` models a missing or wrongly typed
field. -/
structure EvalOut where
  summary : Option String
  bullets : Option (List String)
  tags : Option (List String)
  notes : Option String
deriving DecidableEq

/-- Digest payload handed to `_run_eval`: the raw digest on the first
attempt, the budget-reduced digest on the context-window retry. -/
inductive PromptDigest where
  | raw (d : Digest)
  | budgeted (b : BudgetedDigest)
deriving DecidableEq

/-- Persisted changelog entry (the fields the pipeline derives from its
inputs; `created_at` and the various absolute paths are environment data
outside the model). -/
structure CEntry where
  runId : String
  summary : String
  bullets : List String
  tags : List String
  touched : Touched
  tests : List TestRec
  commits : List Commit
  notes : Option String
deriving DecidableEq

/-- Failure record written to the failures ledger. -/
structure FailureRec where
  runId : String
  error : String
deriving DecidableEq

/-- The ledger files scanned and written by one pipeline invocation: the
per-actor entries file (the one appended to), the two legacy entries
locations also scanned for run ids, and the failures file. -/
structure LedgerState where
  entriesActor : List CEntry
  entriesRoot : List CEntry
  entriesLegacy : List CEntry
  failures : List FailureRec
deriving DecidableEq

/-- Embedding of `_load_existing_run_ids`: the non-empty `run_id` fields. -/
def load_existing_run_ids (entries : List CEntry) : List String :=
  entries.filterMap fun e => if e.runId ≠ "" then some e.runId else none

/-- Result of one pipeline invocation: the `(bool, run_id, status)` tuple. -/
structure RunOutcome where
  ok : Bool
  runId : String
  status : String
deriving DecidableEq

/-- Embedding of the body of the `try` block of
`_generate_and_append_changelog_entry`: digest build, evaluator name
check, evaluator call with the single context-window retry, and output
validation; any error propagates to the caller's failure handler. -/
def changelogEntryBody (parseTs : String → Option Int) (loglines : List SEntry)
    (source_format : String) (evaluator : String)
    (runEval : PromptDigest → Except String EvalOut)
    (key : RunKey) (prior_prompts : Int) (rid : String) : Except String CEntry := do
  let digest ←
    match build_changelog_digest parseTs loglines source_format key.start key.endT prior_prompts with
    | some d => Except.ok d
    | none => Except.error "Invalid start/end timestamps for changelog digest"
  let evaluatorValue := pyLower (pyStrip evaluator)
  if evaluatorValue ≠ "codex" ∧ evaluatorValue ≠ "claude" then
    Except.error ("Unknown changelog evaluator: " ++ evaluator)
  else do
    let out ←
      match runEval (.raw digest) with
      | .ok o => Except.ok o
      | .error e =>
          if looks_like_context_window_error e then
            runEval (.budgeted (budget_changelog_digest digest 200000 30 200 4 20))
          else .error e
    let summary ←
      match out.summary with
      | some s =>
          if pyStrip s ≠ "" then Except.ok (pyStrip s)
          else Except.error (evaluatorValue ++ " output missing summary")
      | none => Except.error (evaluatorValue ++ " output missing summary")
    let bullets ←
      match out.bullets with
      | some l =>
          if l ≠ [] then Except.ok l
          else Except.error (evaluatorValue ++ " output missing bullets")
      | none => Except.error (evaluatorValue ++ " output missing bullets")
    let tags := out.tags.getD []
    Except.ok
      { runId := rid,
        summary := summary,
        bullets := (bullets.filterMap fun b =>
          let t := pyStrip b
          if t ≠ "" then some t else none).take 12,
        tags := (tags.filterMap fun t0 =>
          let t := pyStrip t0
          if t ≠ "" then some t else none).take 24,
        touched := digest.touchedFiles,
        tests := digest.tests,
        commits := digest.commits,
        notes :=
          match out.notes with
          | some s => if pyStrip s ≠ "" then some (pyStrip s) else none
          | none => none }

/-- Embedding of `_generate_and_append_changelog_entry`: compute the run
id, scan the three entries ledgers, short-circuit on a duplicate, run the
pipeline body, and either append the entry to the per-actor entries file
or append a failure record to the failures file. -/
def generate_and_append_changelog_entry (computeRunId : RunKey → String)
    (parseTs : String → Option Int) (loglines : List SEntry)
    (source_format : String) (evaluator : String)
    (runEval : PromptDigest → Except String EvalOut)
    (halt_on_429 : Bool) (key : RunKey) (prior_prompts : Int)
    (st : LedgerState) : LedgerState × RunOutcome :=
  let rid := computeRunId key
  let existing :=
    load_existing_run_ids st.entriesActor ++ load_existing_run_ids st.entriesRoot ++
      load_existing_run_ids st.entriesLegacy
  if rid ∈ existing then (st, ⟨false, rid, "exists"⟩)
  else
    match changelogEntryBody parseTs loglines source_format evaluator runEval key prior_prompts rid with
    | .ok entry =>
        ({ st with entriesActor := st.entriesActor ++ [entry] }, ⟨true, rid, "appended"⟩)
    | .error e =>
        let st2 := { st with failures := st.failures ++ [⟨rid, truncate_text_middle e 2000⟩] }
        if halt_on_429 && looks_like_usage_limit_error e then (st2, ⟨false, rid, "rate_limited"⟩)
        else (st2, ⟨false, rid, "failed"⟩)

/-- Count of entries-ledger lines carrying a given run id. -/
def countRunId (entries : List CEntry) (rid : String) : Nat :=
  (entries.filter fun e => e.runId == rid).length

/-!
Concrete scenarios referenced by the theorems.
-/

/-- Session with one test command whose result reports exit code 0. -/
def c5EventsPass : List SEntry :=
  [⟨"assistant", "1",
    [.toolUse "bash" (.idict [("command", .s "pytest -q")]),
     .toolResult "Process exited with code 0" none]⟩]

/-- Same session with exit code 1. -/
def c5EventsFail : List SEntry :=
  [⟨"assistant", "1",
    [.toolUse "bash" (.idict [("command", .s "pytest -q")]),
     .toolResult "Process exited with code 1" none]⟩]

/-- Same session with no recognizable exit marker. -/
def c5EventsNoMarker : List SEntry :=
  [⟨"assistant", "1",
    [.toolUse "bash" (.idict [("command", .s "pytest -q")]),
     .toolResult "all good" none]⟩]

/-- Claim C4: the three example strings of the rate-limit classification
property. -/
theorem usage_limit_classifier_code_bug :
    looks_like_usage_limit_error "HTTP 429 Too Many Requests" = true ∧
    looks_like_usage_limit_error "usage_limit_reached" = true ∧
    looks_like_usage_limit_error
      "\x7b\x22rate_limits\x22: \x7b\x22primary\x22: \x7b\x22used_percent\x22: 12.0\x7d\x7d\x7d" = true ∧
    looks_like_usage_limit_error "error=429" = false := by
  decide

/-- Claim C5: a tool_use with command `pytest -q` is not flagged as a test
command (the doubled-backslash patterns cannot match it), the exit-code
marker `Process exited with code N` is never recognized, and hence the
derived tests list of the digest is empty in all three claimed scenarios. -/
theorem test_outcome_code_bug :
    looks_like_test_command "pytest -q" = false ∧
    infer_exit_code_from_exec_output "Process exited with code 0" = none ∧
    infer_exit_code_from_exec_output "Process exited with code 1" = none ∧
    (build_changelog_digest pyIntParse c5EventsPass "codex_rollout" "0" "10" 3).map
      (fun d => d.tests) = some [] ∧
    (build_changelog_digest pyIntParse c5EventsFail "codex_rollout" "0" "10" 3).map
      (fun d => d.tests) = some [] ∧
    (build_changelog_digest pyIntParse c5EventsNoMarker "codex_rollout" "0" "10" 3).map
      (fun d => d.tests) = some [] := by
  decide

/-- Claim C2, counterexample: for the parseable pair start = 10, end = 0,
the event with timestamp 5 satisfies ts > end and is nevertheless
classified into the before partition, so an event with `ts > end` does not
always appear in neither partition. -/
theorem window_slicer_counterexample :
    pyIntParse "10" = some 10 ∧ pyIntParse "0" = some 0 ∧ pyIntParse "5" = some 5 ∧
    (0 : Int) < 5 ∧
    (⟨"user", "5", []⟩ : SEntry) ∈ (sliceWindow pyIntParse 10 0 [⟨"user", "5", []⟩]).1 := by
  decide

/-- Claim C2, amended: the within partition only holds events with a
parseable timestamp inside the inclusive window and the before partition
only events with ts < start; events with unparseable timestamps are always
dropped; and provided start ≤ end, events with ts > end appear in neither
partition (for an inverted pair end < start an event with
end < ts < start lands in before). -/
theorem window_slicer_amended (parseTs : String → Option Int) (s e : Int)
    (loglines : List SEntry) :
    (∀ ev ∈ (sliceWindow parseTs s e loglines).2,
        ∃ t, parseTs ev.timestamp = some t ∧ s ≤ t ∧ t ≤ e) ∧
    (∀ ev ∈ (sliceWindow parseTs s e loglines).1,
        ∃ t, parseTs ev.timestamp = some t ∧ t < s) ∧
    (∀ ev, parseTs ev.timestamp = none →
        ev ∉ (sliceWindow parseTs s e loglines).1 ∧
        ev ∉ (sliceWindow parseTs s e loglines).2) ∧
    (s ≤ e → ∀ ev t, parseTs ev.timestamp = some t → e < t →
        ev ∉ (sliceWindow parseTs s e loglines).1 ∧
        ev ∉ (sliceWindow parseTs s e loglines).2) := by
  induction loglines with
  | nil =>
      refine ⟨?_, ?_, ?_, ?_⟩ <;> simp [sliceWindow]
  | cons entry rest ih =>
      obtain ⟨ih1, ih2, ih3, ih4⟩ := ih
      cases hp : parseTs entry.timestamp with
      | none =>
          simp only [sliceWindow, hp]
          exact ⟨ih1, ih2, fun ev h => ih3 ev h, fun hse ev t hpt het => ih4 hse ev t hpt het⟩
      | some t =>
          by_cases h1 : t < s
          · simp only [sliceWindow, hp, if_pos h1]
            refine ⟨ih1, ?_, ?_, ?_⟩
            · intro ev hev
              rcases List.mem_cons.mp hev with rfl | hev
              · exact ⟨t, hp, h1⟩
              · exact ih2 ev hev
            · intro ev hne
              refine ⟨?_, (ih3 ev hne).2⟩
              intro hmem
              rcases List.mem_cons.mp hmem with rfl | hev
              · rw [hne] at hp; exact Option.noConfusion hp
              · exact (ih3 ev hne).1 hev
            · intro hse ev t' hpt het
              refine ⟨?_, (ih4 hse ev t' hpt het).2⟩
              intro hmem
              rcases List.mem_cons.mp hmem with rfl | hev
              · rw [hpt] at hp
                have : t' = t := by injection hp
                omega
              · exact (ih4 hse ev t' hpt het).1 hev
          · by_cases h2 : e < t
            · simp only [sliceWindow, hp, if_neg h1, if_pos h2]
              exact ⟨ih1, ih2, fun ev h => ih3 ev h, fun hse ev t' hpt het => ih4 hse ev t' hpt het⟩
            · simp only [sliceWindow, hp, if_neg h1, if_neg h2]
              refine ⟨?_, ih2, ?_, ?_⟩
              · intro ev hev
                rcases List.mem_cons.mp hev with rfl | hev
                · exact ⟨t, hp, by omega, by omega⟩
                · exact ih1 ev hev
              · intro ev hne
                refine ⟨(ih3 ev hne).1, ?_⟩
                intro hmem
                rcases List.mem_cons.mp hmem with rfl | hev
                · rw [hne] at hp; exact Option.noConfusion hp
                · exact (ih3 ev hne).2 hev
              · intro hse ev t' hpt het
                refine ⟨(ih4 hse ev t' hpt het).1, ?_⟩
                intro hmem
                rcases List.mem_cons.mp hmem with rfl | hev
                · rw [hpt] at hp
                  have : t' = t := by injection hp
                  omega
                · exact (ih4 hse ev t' hpt het).2 hev

/-- Witness for the amended window theorem at a concrete event list: the
event with timestamp 15 is outside the window 0..10 and lands in neither
partition. -/
theorem window_slicer_amended_witness :
    (⟨"user", "15", []⟩ : SEntry) ∉ (sliceWindow pyIntParse 0 10 [⟨"user", "15", []⟩]).1 ∧
    (⟨"user", "15", []⟩ : SEntry) ∉ (sliceWindow pyIntParse 0 10 [⟨"user", "15", []⟩]).2 :=
  (window_slicer_amended pyIntParse 0 10 [⟨"user", "15", []⟩]).2.2.2 (by decide)
    ⟨"user", "15", []⟩ 15 (by decide) (by decide)

/-- Session with two tool_use blocks followed by two tool_result blocks
(the first call is still unresolved when the second result arrives). -/
def c7Events : List SEntry :=
  [⟨"assistant", "1",
    [.toolUse "t1" (.idict []),
     .toolUse "t2" (.idict []),
     .toolResult "r1" none,
     .toolResult "r2" none]⟩]

/-- Claim C7, counterexample: with calls A, B opened in that order and two
results arriving afterwards, the code attaches the first result to B and
drops the second; call A (the most recently opened call without a result
when the second tool_result block arrives) never receives a result, so not
every tool_result attaches to the most recently opened pending call that
has no result yet. -/
theorem tool_pairing_counterexample :
    (build_changelog_digest pyIntParse c7Events "codex_rollout" "0" "10" 3).map
        (fun d => d.toolCalls.map (fun c => c.result)) =
      some [none, some ⟨"1", false, none, none⟩] := by
  decide

/-- One tool_result step only ever rewrites the head of the reversed call
list (the most recently opened call), and only when that call has no
result yet. -/
theorem processToolResult_callsRev (ts content : String) (ie : Option Bool) (st : ExtSt)
    (pending : ToolCall) (rest : List ToolCall) (h : st.callsRev = pending :: rest) :
    (processToolResult ts content ie st).callsRev =
      (if pending.result = none then
        { pending with result := some (mkResultObj ts content ie st.callsRev) }
       else pending) :: rest := by
  unfold processToolResult
  simp only [h]
  by_cases hres : pending.result = none <;>
    by_cases hit : (pending.isTest = true ∧ cmdTruthy pending.cmd = true) <;>
      by_cases herr : (mkResultObj ts content ie (pending :: rest)).isErr = true <;>
        simp [hres, hit, herr]

/-- Frame relation between extraction states: relative to any head/tail
split of the call list of the first state, the second state's call list
extends it with fresh calls, keeps every non-head call unchanged, and has
mutated the head at most once (attaching a result only while it was
`none`). -/
def CallFrame (x y : ExtSt) : Prop :=
  ∀ pending rest, x.callsRev = pending :: rest →
    ∃ fresh pending2,
      y.callsRev = fresh ++ pending2 :: rest ∧
      (pending.result ≠ none → pending2 = pending) ∧
      (pending2 = pending ∨
        (pending.result = none ∧ ∃ r, pending2 = { pending with result := some r }))

/-- Invariance of the frame relation for steps that do not touch the call
list. -/
theorem callFrame_of_eq {x y : ExtSt} (h : y.callsRev = x.callsRev) : CallFrame x y :=
  fun pending rest hx => ⟨[], pending, by rw [h, hx]; rfl, fun _ => rfl, Or.inl rfl⟩

/-- Transitivity of the frame relation. -/
theorem callFrame_trans {x y z : ExtSt} (h1 : CallFrame x y) (h2 : CallFrame y z) :
    CallFrame x z := by
  intro pending rest hx
  obtain ⟨fresh, p2, hy, hk, hd⟩ := h1 pending rest hx
  cases fresh with
  | nil =>
      obtain ⟨fresh2, p3, hz, hk2, hd2⟩ := h2 p2 rest (by simpa using hy)
      refine ⟨fresh2, p3, hz, ?_, ?_⟩
      · intro hne
        have hp2 : p2 = pending := hk hne
        have hne2 : p2.result ≠ none := by rw [hp2]; exact hne
        exact (hk2 hne2).trans hp2
      · rcases hd with hd | ⟨hnone, r, hr⟩
        · subst hd
          exact hd2
        · have hne2 : p2.result ≠ none := by rw [hr]; simp
          have hp3 : p3 = p2 := hk2 hne2
          exact Or.inr ⟨hnone, r, hp3.trans hr⟩
  | cons f0 f1 =>
      obtain ⟨fresh2, p3, hz, hk2, hd2⟩ := h2 f0 (f1 ++ p2 :: rest) (by simpa using hy)
      exact ⟨fresh2 ++ p3 :: f1, p2, by simpa [List.append_assoc] using hz, hk, hd⟩

/-- A tool_use step pushes one fresh call. -/
theorem processToolUse_callsRev (ts name : String) (input : TInput) (st : ExtSt) :
    (processToolUse ts name input st).callsRev = mkToolUseCall ts name input :: st.callsRev := rfl

/-- Every tool-block step satisfies the frame relation. -/
theorem callFrame_processBlock (ts : String) (st : ExtSt) (b : CBlock) :
    CallFrame st (processBlock ts st b) := by
  cases b with
  | text t => exact callFrame_of_eq rfl
  | thinking t => exact callFrame_of_eq rfl
  | toolUse name input =>
      intro pending rest h
      refine ⟨[mkToolUseCall ts name input], pending, ?_, fun _ => rfl, Or.inl rfl⟩
      simp [processBlock, processToolUse_callsRev, h]
  | toolResult content ie =>
      intro pending rest h
      have hstep := processToolResult_callsRev ts content ie st pending rest h
      by_cases hres : pending.result = none
      · rw [if_pos hres] at hstep
        exact ⟨[], { pending with result := some (mkResultObj ts content ie st.callsRev) },
          by simpa using hstep, fun hne => absurd hres hne,
          Or.inr ⟨hres, mkResultObj ts content ie st.callsRev, rfl⟩⟩
      · rw [if_neg hres] at hstep
        exact ⟨[], pending, by simpa using hstep, fun _ => rfl, Or.inl rfl⟩

/-- Folding any step function whose steps satisfy the frame relation
preserves it. -/
theorem callFrame_foldl {β : Type} (f : ExtSt → β → ExtSt)
    (hf : ∀ st b, CallFrame st (f st b)) :
    ∀ (l : List β) (st : ExtSt), CallFrame st (l.foldl f st) := by
  intro l
  induction l with
  | nil => intro st; exact callFrame_of_eq rfl
  | cons b bs ih => intro st; exact callFrame_trans (hf st b) (ih (f st b))

/-- The text-block fold of an assistant entry never touches the call list. -/
theorem textFold_callsRev (ts : String) : ∀ (texts : List String) (st : ExtSt),
    ((texts.foldl (fun s txt =>
      { s with
          commits := s.commits ++ extract_commits_from_text txt,
          assistantText := s.assistantText ++ [⟨ts, truncate_text txt 2000⟩] }) st)).callsRev =
      st.callsRev := by
  intro texts
  induction texts with
  | nil => intro st; rfl
  | cons t rest ih => intro st; exact ih _

/-- Every entry step satisfies the frame relation. -/
theorem callFrame_processEntry (st : ExtSt) (entry : SEntry) :
    CallFrame st (processEntry st entry) := by
  unfold processEntry
  by_cases hu : entry.etype == "user"
  · simp only [hu, if_pos]
    split
    · exact callFrame_of_eq rfl
    · exact callFrame_of_eq rfl
  · simp only [hu, Bool.false_eq_true, if_neg, ite_false]
    by_cases ha : entry.etype = "assistant"
    · rw [if_neg (not_not_intro ha)]
      exact callFrame_trans
        (callFrame_of_eq (textFold_callsRev entry.timestamp
          (extract_text_blocks_from_message entry.content) st))
        (callFrame_foldl _ (fun s b => callFrame_processBlock entry.timestamp s b) _ _)
    · rw [if_pos ha]
      exact callFrame_of_eq rfl

/-- The entry fold satisfies the frame relation. -/
theorem callFrame_entriesFold (entries : List SEntry) (st : ExtSt) :
    CallFrame st (entries.foldl processEntry st) :=
  callFrame_foldl processEntry callFrame_processEntry entries st

/-- Claim C7, amended: a tool_result attaches to the single most recently
opened call, and only when that call has no result yet (a result arriving
while the most recent call is already resolved is dropped; earlier
unresolved calls are never revisited); every call receives at most one
result and its record is never mutated after the result is attached.
Stated as: one result step rewrites exactly the head of the reversed call
list, and only while its result is `none`; and across any sequence of
within-window entries every non-head call is carried unchanged while the
head is mutated at most once. -/
theorem tool_pairing_amended (ts content : String) (ie : Option Bool) (st : ExtSt)
    (pending : ToolCall) (rest : List ToolCall) (h : st.callsRev = pending :: rest) :
    ((processToolResult ts content ie st).callsRev =
      (if pending.result = none then
        { pending with result := some (mkResultObj ts content ie st.callsRev) }
       else pending) :: rest) ∧
    (∀ entries : List SEntry, ∃ fresh pending2,
      (entries.foldl processEntry st).callsRev = fresh ++ pending2 :: rest ∧
      (pending.result ≠ none → pending2 = pending) ∧
      (pending2 = pending ∨
        (pending.result = none ∧ ∃ r, pending2 = { pending with result := some r }))) :=
  ⟨processToolResult_callsRev ts content ie st pending rest h,
   fun entries => callFrame_entriesFold entries st pending rest h⟩

/-- Witness for the amended pairing theorem at a concrete state: a second
result arriving after the most recent call is resolved leaves everything
unchanged. -/
theorem tool_pairing_amended_witness :
    (processToolResult "2" "r2" none
        ⟨[], [], [⟨"1", "t2", .idict [], some ⟨"1", false, none, none⟩, none, none, none, none, false⟩,
          ⟨"1", "t1", .idict [], none, none, none, none, none, false⟩], [], [], [], [], [], [], []⟩).callsRev =
      (if (⟨"1", "t2", .idict [], some ⟨"1", false, none, none⟩, none, none, none, none, false⟩ : ToolCall).result = none then
        { (⟨"1", "t2", .idict [], some ⟨"1", false, none, none⟩, none, none, none, none, false⟩ : ToolCall) with
            result := some (mkResultObj "2" "r2" none
              [⟨"1", "t2", .idict [], some ⟨"1", false, none, none⟩, none, none, none, none, false⟩,
               ⟨"1", "t1", .idict [], none, none, none, none, none, false⟩]) }
       else ⟨"1", "t2", .idict [], some ⟨"1", false, none, none⟩, none, none, none, none, false⟩) ::
        [⟨"1", "t1", .idict [], none, none, none, none, none, false⟩] :=
  (tool_pairing_amended "2" "r2" none
    ⟨[], [], [⟨"1", "t2", .idict [], some ⟨"1", false, none, none⟩, none, none, none, none, false⟩,
      ⟨"1", "t1", .idict [], none, none, none, none, none, false⟩], [], [], [], [], [], [], []⟩
    ⟨"1", "t2", .idict [], some ⟨"1", false, none, none⟩, none, none, none, none, false⟩
    [⟨"1", "t1", .idict [], none, none, none, none, none, false⟩] rfl).1

/-- Session whose apply_patch payload is the spec's Update-then-Move
example. -/
def c9Events : List SEntry :=
  [⟨"assistant", "1",
    [.toolUse "apply_patch" (.istr "*** Update File: src/app.py\n*** Move to: src/app2.py")]⟩]

/-- Claim C9, counterexample: the Update/Move payload does yield the
claimed move pair, but the Update directive also records `src/app.py` in
the modified set (both in the parser's result and in the digest's touched
files), so there IS an entry in modified for that path beyond the recorded
move. -/
theorem apply_patch_move_counterexample :
    parse_apply_patch_file_ops "*** Update File: src/app.py\n*** Move to: src/app2.py" =
      ⟨[], ["src/app.py"], [], [⟨"src/app.py", "src/app2.py"⟩]⟩ ∧
    (build_changelog_digest pyIntParse c9Events "codex_rollout" "0" "10" 3).map
        (fun d => (d.touchedFiles.modified, d.touchedFiles.moved)) =
      some (["src/app.py"], [⟨"src/app.py", "src/app2.py"⟩]) := by
  decide

/-- One patch line preserves the parser invariant: a non-empty current
path is recorded in one of the three sets, and every recorded move starts
at a path recorded in one of the three sets, with non-empty endpoints. -/
theorem patchLineStep_invariant (ops : PatchOps) (current : String) (line : String)
    (h1 : current ≠ "" → current ∈ ops.created ++ ops.modified ++ ops.deleted)
    (h2 : ∀ mv ∈ ops.moved,
      mv.fromPath ∈ ops.created ++ ops.modified ++ ops.deleted ∧
      mv.fromPath ≠ "" ∧ mv.toPath ≠ "") :
    ((patchLineStep (ops, current) line).2 ≠ "" →
      (patchLineStep (ops, current) line).2 ∈
        (patchLineStep (ops, current) line).1.created ++
        (patchLineStep (ops, current) line).1.modified ++
        (patchLineStep (ops, current) line).1.deleted) ∧
    (∀ mv ∈ (patchLineStep (ops, current) line).1.moved,
      mv.fromPath ∈
        (patchLineStep (ops, current) line).1.created ++
        (patchLineStep (ops, current) line).1.modified ++
        (patchLineStep (ops, current) line).1.deleted ∧
      mv.fromPath ≠ "" ∧ mv.toPath ≠ "") := by
  unfold patchLineStep
  dsimp only
  by_cases hA : strStartsWith line "*** Add File: " = true
  · rw [if_pos hA]
    by_cases hp : pyStrip ⟨line.data.drop "*** Add File: ".data.length⟩ = ""
    · rw [if_neg (not_not_intro hp)]
      exact ⟨fun hne => absurd hp hne, h2⟩
    · rw [if_pos hp]
      refine ⟨fun hne => ?_, fun mv hmv => ?_⟩
      · simp [List.mem_append]
      · obtain ⟨hmem, hf, ht⟩ := h2 mv hmv
        refine ⟨?_, hf, ht⟩
        simp only [List.mem_append] at hmem ⊢
        tauto
  · rw [if_neg hA]
    by_cases hU : strStartsWith line "*** Update File: " = true
    · rw [if_pos hU]
      by_cases hp : pyStrip ⟨line.data.drop "*** Update File: ".data.length⟩ = ""
      · rw [if_neg (not_not_intro hp)]
        exact ⟨fun hne => absurd hp hne, h2⟩
      · rw [if_pos hp]
        refine ⟨fun hne => ?_, fun mv hmv => ?_⟩
        · simp [List.mem_append]
        · obtain ⟨hmem, hf, ht⟩ := h2 mv hmv
          refine ⟨?_, hf, ht⟩
          simp only [List.mem_append] at hmem ⊢
          tauto
    · rw [if_neg hU]
      by_cases hD : strStartsWith line "*** Delete File: " = true
      · rw [if_pos hD]
        by_cases hp : pyStrip ⟨line.data.drop "*** Delete File: ".data.length⟩ = ""
        · rw [if_neg (not_not_intro hp)]
          exact ⟨fun hne => absurd hp hne, h2⟩
        · rw [if_pos hp]
          refine ⟨fun hne => ?_, fun mv hmv => ?_⟩
          · simp [List.mem_append]
          · obtain ⟨hmem, hf, ht⟩ := h2 mv hmv
            refine ⟨?_, hf, ht⟩
            simp only [List.mem_append] at hmem ⊢
            tauto
      · rw [if_neg hD]
        by_cases hM : strStartsWith line "*** Move to: " = true
        · rw [if_pos hM]
          by_cases hm : (current ≠ "" ∧
              pyStrip ⟨line.data.drop "*** Move to: ".data.length⟩ ≠ "")
          · rw [if_pos hm]
            refine ⟨fun hne => h1 hne, fun mv hmv => ?_⟩
            simp only [List.mem_append, List.mem_singleton] at hmv
            rcases hmv with hmv | rfl
            · exact h2 mv hmv
            · exact ⟨h1 hm.1, hm.1, hm.2⟩
          · rw [if_neg hm]
            exact ⟨h1, h2⟩
        · rw [if_neg hM]
          exact ⟨h1, h2⟩

/-- Fold version of the parser invariant. -/
theorem patchFold_invariant (lines : List String) : ∀ (ops : PatchOps) (current : String),
    (current ≠ "" → current ∈ ops.created ++ ops.modified ++ ops.deleted) →
    (∀ mv ∈ ops.moved,
      mv.fromPath ∈ ops.created ++ ops.modified ++ ops.deleted ∧
      mv.fromPath ≠ "" ∧ mv.toPath ≠ "") →
    (∀ mv ∈ (lines.foldl (fun acc raw => patchLineStep acc (pyStrip raw)) (ops, current)).1.moved,
      mv.fromPath ∈
        (lines.foldl (fun acc raw => patchLineStep acc (pyStrip raw)) (ops, current)).1.created ++
        (lines.foldl (fun acc raw => patchLineStep acc (pyStrip raw)) (ops, current)).1.modified ++
        (lines.foldl (fun acc raw => patchLineStep acc (pyStrip raw)) (ops, current)).1.deleted ∧
      mv.fromPath ≠ "" ∧ mv.toPath ≠ "") := by
  induction lines with
  | nil => intro ops current _ h2; exact h2
  | cons line rest ih =>
      intro ops current h1 h2
      obtain ⟨g1, g2⟩ := patchLineStep_invariant ops current (pyStrip line) h1 h2
      have := ih (patchLineStep (ops, current) (pyStrip line)).1
        (patchLineStep (ops, current) (pyStrip line)).2 g1 g2
      simpa using this

/-- Claim C9, amended: the Update-then-Move payload yields the claimed
move pair, with the moved-from path also recorded in the modified set by
the Update directive (the move does not remove it); and in general every
recorded move attaches to a non-empty path previously opened by an
Add/Update/Delete directive (hence recorded in one of the three sets) and
carries a non-empty destination. -/
theorem apply_patch_move_amended (patch_text : String) :
    parse_apply_patch_file_ops "*** Update File: src/app.py\n*** Move to: src/app2.py" =
      ⟨[], ["src/app.py"], [], [⟨"src/app.py", "src/app2.py"⟩]⟩ ∧
    (∀ mv ∈ (parse_apply_patch_file_ops patch_text).moved,
      mv.fromPath ∈
        (parse_apply_patch_file_ops patch_text).created ++
        (parse_apply_patch_file_ops patch_text).modified ++
        (parse_apply_patch_file_ops patch_text).deleted ∧
      mv.fromPath ≠ "" ∧ mv.toPath ≠ "") := by
  constructor
  · decide
  · intro mv hmv
    unfold parse_apply_patch_file_ops at hmv ⊢
    by_cases hempty : pyStrip patch_text = ""
    · rw [if_pos hempty] at hmv
      simp at hmv
    · rw [if_neg hempty] at hmv ⊢
      exact patchFold_invariant (splitLinesNL patch_text) ⟨[], [], [], []⟩ ""
        (fun hne => absurd rfl hne) (by simp) mv hmv

/-- Witness for the amended patch theorem: the move recorded by the
example payload starts at the path opened by the Update directive. -/
theorem apply_patch_move_amended_witness :
    (⟨"src/app.py", "src/app2.py"⟩ : Moved).fromPath ∈
      (parse_apply_patch_file_ops "*** Update File: src/app.py\n*** Move to: src/app2.py").created ++
      (parse_apply_patch_file_ops "*** Update File: src/app.py\n*** Move to: src/app2.py").modified ++
      (parse_apply_patch_file_ops "*** Update File: src/app.py\n*** Move to: src/app2.py").deleted ∧
    (⟨"src/app.py", "src/app2.py"⟩ : Moved).fromPath ≠ "" ∧
    (⟨"src/app.py", "src/app2.py"⟩ : Moved).toPath ≠ "" :=
  (apply_patch_move_amended "*** Update File: src/app.py\n*** Move to: src/app2.py").2
    ⟨"src/app.py", "src/app2.py"⟩ (by decide)

/-- Text with 51 git-commit output lines (messages m0..m50, oldest
first). -/
def c8Text : String :=
  joinSepStr "" ((List.range 51).map (fun i => "[main aaaaaa0] m" ++ toString i ++ "\n"))

/-- Session containing the 51-commit text in one assistant text block. -/
def c8Events : List SEntry :=
  [⟨"assistant", "1", [.text c8Text]⟩]

/-- Claim C8, counterexample: 51 commits are collected in order, but the
digest keeps the FIRST 50 (`commits[:50]`): the oldest commit m0 is kept
and the most recent commit m50 is dropped, so the list is not capped to
the most recent 50. -/
theorem commit_cap_counterexample :
    (extract_commits_from_text c8Text).length = 51 ∧
    (extract_commits_from_text c8Text).getLast? = some ⟨"aaaaaa0", "m50"⟩ ∧
    (build_changelog_digest pyIntParse c8Events "codex_rollout" "0" "10" 3).map
        (fun d => (d.commits.length,
          decide ((⟨"aaaaaa0", "m50"⟩ : Commit) ∈ d.commits),
          d.commits.head?)) =
      some (50, false, some ⟨"aaaaaa0", "m0"⟩) := by
  decide

/-- Commit stream of one entry, following the spec's words: scan every
assistant text block, then every tool_result's textual content, in block
order. -/
def spec_entry_commits (entry : SEntry) : List Commit :=
  if entry.etype = "assistant" then
    ((extract_text_blocks_from_message entry.content).map extract_commits_from_text).join ++
      ((extract_tool_blocks_from_message entry.content).filterMap fun b =>
        match b with
        | .toolResult content _ => some (extract_commits_from_text content)
        | _ => none).join
  else []

/-- Commit stream of an entry sequence, order preserved. -/
def spec_commit_stream (entries : List SEntry) : List Commit :=
  (entries.map spec_entry_commits).join

/-- A tool_result step appends exactly the commits scanned from its
content. -/
theorem processToolResult_commits (ts content : String) (ie : Option Bool) (st : ExtSt) :
    (processToolResult ts content ie st).commits =
      st.commits ++ extract_commits_from_text content := by
  unfold processToolResult
  cases hc : st.callsRev with
  | nil =>
      simp only [hc]
      split <;> rfl
  | cons pending rest =>
      simp only [hc]
      by_cases hres : pending.result = none <;>
        by_cases hit : (pending.isTest = true ∧ cmdTruthy pending.cmd = true) <;>
          by_cases herr : (mkResultObj ts content ie (pending :: rest)).isErr = true <;>
            simp [hres, hit, herr]

/-- The tool-block fold appends exactly the commits of the tool_result
contents, in block order. -/
theorem blocksFold_commits (ts : String) : ∀ (blocks : List CBlock) (st : ExtSt),
    (blocks.foldl (processBlock ts) st).commits =
      st.commits ++ (blocks.filterMap fun b =>
        match b with
        | .toolResult content _ => some (extract_commits_from_text content)
        | _ => none).join := by
  intro blocks
  induction blocks with
  | nil => intro st; simp
  | cons b bs ih =>
      intro st
      cases b with
      | text t => simpa using ih st
      | thinking t => simpa using ih st
      | toolUse name input =>
          have hcu : (processToolUse ts name input st).commits = st.commits := rfl
          simpa [hcu] using ih (processToolUse ts name input st)
      | toolResult content ie =>
          have := ih (processToolResult ts content ie st)
          simp only [List.foldl_cons, processBlock] at this ⊢
          rw [this, processToolResult_commits, List.filterMap_cons]
          simp [List.append_assoc]

/-- The text-block fold appends exactly the commits of the text blocks,
in order. -/
theorem textFold_commits (ts : String) : ∀ (texts : List String) (st : ExtSt),
    ((texts.foldl (fun s txt =>
      { s with
          commits := s.commits ++ extract_commits_from_text txt,
          assistantText := s.assistantText ++ [⟨ts, truncate_text txt 2000⟩] }) st)).commits =
      st.commits ++ (texts.map extract_commits_from_text).join := by
  intro texts
  induction texts with
  | nil => intro st; simp
  | cons t rest ih =>
      intro st
      simp only [List.foldl_cons, List.map_cons, List.join]
      rw [ih]
      simp [List.append_assoc]

/-- One entry appends exactly its spec-side commit stream. -/
theorem processEntry_commits (st : ExtSt) (entry : SEntry) :
    (processEntry st entry).commits = st.commits ++ spec_entry_commits entry := by
  unfold processEntry spec_entry_commits
  by_cases hu : entry.etype == "user"
  · have he : entry.etype = "user" := by simpa using hu
    have hna : ¬ entry.etype = "assistant" := by rw [he]; decide
    rw [if_pos hu, if_neg hna]
    simp only [List.append_nil]
    split <;> rfl
  · simp only [hu, Bool.false_eq_true, if_neg, ite_false]
    by_cases ha : entry.etype = "assistant"
    · rw [if_neg (not_not_intro ha), if_pos ha]
      rw [blocksFold_commits, textFold_commits]
      simp [List.append_assoc]
    · rw [if_pos ha, if_neg ha]
      simp

/-- The entry fold appends exactly the spec-side commit stream. -/
theorem entriesFold_commits : ∀ (entries : List SEntry) (st : ExtSt),
    (entries.foldl processEntry st).commits = st.commits ++ spec_commit_stream entries := by
  intro entries
  induction entries with
  | nil => intro st; simp [spec_commit_stream]
  | cons entry rest ih =>
      intro st
      simp only [List.foldl_cons, spec_commit_stream, List.map_cons, List.join]
      rw [ih, processEntry_commits]
      simp [spec_commit_stream, List.append_assoc]

/-- Claim C8, amended: the example text yields exactly one commit fact;
commit facts are collected in scan order over every assistant text block
and every tool_result content of the within-window entries; and the
digest's commit list is the FIRST 50 collected commits (`commits[:50]`),
not the most recent 50. -/
theorem commit_collection_amended (parseTs : String → Option Int) (loglines : List SEntry)
    (sf start endS : String) (pp s e : Int)
    (hs : parseTs start = some s) (he : parseTs endS = some e) :
    extract_commits_from_text "[main a1b2c3d] Fix login bug\n" =
      [⟨"a1b2c3d", "Fix login bug"⟩] ∧
    (build_changelog_digest parseTs loglines sf start endS pp).map (fun d => d.commits) =
      some ((spec_commit_stream (sliceWindow parseTs s e loglines).2).take 50) := by
  refine ⟨by decide, ?_⟩
  unfold build_changelog_digest
  rw [hs, he]
  simp only [Option.map_some']
  have := entriesFold_commits (sliceWindow parseTs s e loglines).2 ExtSt.empty
  rw [this]
  have hempty : ExtSt.empty.commits = [] := rfl
  rw [hempty, List.nil_append]

/-- Witness for the amended commit theorem at the 51-commit session. -/
theorem commit_collection_amended_witness :
    (build_changelog_digest pyIntParse c8Events "codex_rollout" "0" "10" 3).map
        (fun d => d.commits) =
      some ((spec_commit_stream (sliceWindow pyIntParse 0 10 c8Events).2).take 50) :=
  (commit_collection_amended pyIntParse c8Events "codex_rollout" "0" "10" 3 0 10
    (by decide) (by decide)).2

/-- Characters with equal code points are equal. -/
theorem charEq_of_toNat {a b : Char} (h : a.toNat = b.toNat) : a = b :=
  Char.eq_of_val_eq (UInt32.ext h)

/-- Totality of the lexicographic order. -/
theorem lexLe_total : ∀ as bs : List Char, lexLe as bs = true ∨ lexLe bs as = true := by
  intro as
  induction as with
  | nil => intro bs; left; rfl
  | cons a as ih =>
      intro bs
      cases bs with
      | nil => right; rfl
      | cons b bs =>
          by_cases h1 : a.toNat < b.toNat
          · left; simp [lexLe, h1]
          · by_cases h2 : b.toNat < a.toNat
            · right; simp [lexLe, h2]
            · have hab : a = b := charEq_of_toNat (by omega)
              subst hab
              rcases ih bs with h | h
              · left; simp [lexLe, h]
              · right; simp [lexLe, h]

/-- Transitivity of the lexicographic order. -/
theorem lexLe_trans : ∀ as bs cs : List Char,
    lexLe as bs = true → lexLe bs cs = true → lexLe as cs = true := by
  intro as
  induction as with
  | nil => intro bs cs _ _; rfl
  | cons a as ih =>
      intro bs cs hab hbc
      cases bs with
      | nil => simp [lexLe] at hab
      | cons b bs =>
          cases cs with
          | nil => simp [lexLe] at hbc
          | cons c cs =>
              simp only [lexLe] at hab hbc ⊢
              by_cases h1 : a.toNat < b.toNat
              · by_cases h2 : b.toNat < c.toNat
                · simp [show a.toNat < c.toNat by omega]
                · simp only [h2, if_false, ite_false] at hbc
                  by_cases hbc2 : b = c
                  · subst hbc2; simp [h1]
                  · simp [hbc2] at hbc
              · simp only [h1, ite_false] at hab
                by_cases hab2 : a = b
                · subst hab2
                  by_cases h2 : a.toNat < c.toNat
                  · simp [h2]
                  · simp only [h2, ite_false] at hbc ⊢
                    by_cases hbc2 : a = c
                    · subst hbc2
                      simp only [beq_self_eq_true, if_true, ite_true] at hab hbc ⊢
                      exact ih bs cs hab hbc
                    · simp only [beq_iff_eq, hbc2, if_false, ite_false]
                      simp only [beq_iff_eq, hbc2] at hbc
                      exact hbc
                · simp [hab2] at hab

/-- Strings with sorted-set semantics: membership in `sortedDedup`. -/
theorem mem_sortedDedup (l : List String) (a : String) : a ∈ sortedDedup l ↔ a ∈ l := by
  unfold sortedDedup
  rw [(List.perm_insertionSort _ _).mem_iff, List.mem_dedup]

/-- `sortedDedup` has no duplicates. -/
theorem sortedDedup_nodup (l : List String) : (sortedDedup l).Nodup :=
  ((List.perm_insertionSort _ _).nodup_iff).mpr (List.nodup_dedup l)

/-- `sortedDedup` is sorted by the Python string order. -/
theorem sortedDedup_sorted (l : List String) :
    List.Sorted (fun a b => strLe a b = true) (sortedDedup l) := by
  haveI : IsTotal String (fun a b => strLe a b = true) := ⟨fun a b => lexLe_total a.data b.data⟩
  haveI : IsTrans String (fun a b => strLe a b = true) :=
    ⟨fun a b c => lexLe_trans a.data b.data c.data⟩
  exact List.sorted_insertionSort _ _

/-- The tool_use blocks (name and input) of the within-window assistant
entries, in scan order. -/
def within_tool_uses (entries : List SEntry) : List (String × TInput) :=
  (entries.map fun entry =>
    if entry.etype = "assistant" then
      (extract_tool_blocks_from_message entry.content).filterMap fun b =>
        match b with
        | .toolUse name input => some (name, input)
        | _ => none
    else []).join

/-- Path-hint of the call opened for a tool_use block. -/
theorem mkToolUseCall_pathHint (ts name : String) (input : TInput) :
    (mkToolUseCall ts name input).pathHint = extract_path_from_tool_input input := rfl

/-- A tool_result step does not change any call's path hint. -/
theorem processToolResult_pathHints (ts content : String) (ie : Option Bool) (st : ExtSt) :
    (processToolResult ts content ie st).callsRev.map (fun c => c.pathHint) =
      st.callsRev.map (fun c => c.pathHint) := by
  unfold processToolResult
  cases hc : st.callsRev with
  | nil =>
      simp only [hc]
      split <;> rfl
  | cons pending rest =>
      simp only [hc]
      by_cases hres : pending.result = none <;>
        by_cases hit : (pending.isTest = true ∧ cmdTruthy pending.cmd = true) <;>
          by_cases herr : (mkResultObj ts content ie (pending :: rest)).isErr = true <;>
            simp [hres, hit, herr]

/-- Path extraction per block: tool_use blocks yield their input's path. -/
def blockUsePath (b : CBlock) : Option (Option String) :=
  match b with
  | .toolUse _ input => some (extract_path_from_tool_input input)
  | _ => none

/-- The tool-block fold records the tool_use path hints in reverse order. -/
theorem blocksFold_pathHints (ts : String) : ∀ (blocks : List CBlock) (st : ExtSt),
    (blocks.foldl (processBlock ts) st).callsRev.map (fun c => c.pathHint) =
      (blocks.filterMap blockUsePath).reverse ++ st.callsRev.map (fun c => c.pathHint) := by
  intro blocks
  induction blocks with
  | nil => intro st; simp
  | cons b bs ih =>
      intro st
      cases b with
      | text t => simpa [blockUsePath] using ih st
      | thinking t => simpa [blockUsePath] using ih st
      | toolUse name input =>
          have h2 := ih (processToolUse ts name input st)
          simp only [List.foldl_cons, processBlock] at h2 ⊢
          rw [h2, processToolUse_callsRev]
          simp [blockUsePath, mkToolUseCall_pathHint, List.filterMap_cons, List.append_assoc]
      | toolResult content ie =>
          have h2 := ih (processToolResult ts content ie st)
          simp only [List.foldl_cons, processBlock] at h2 ⊢
          rw [h2, processToolResult_pathHints]
          simp [blockUsePath, List.filterMap_cons]

/-- Per-block path extraction agrees with extraction from the use pairs. -/
theorem filterMap_blockUsePath_eq (blocks : List CBlock) :
    blocks.filterMap blockUsePath =
      (blocks.filterMap fun b =>
        match b with
        | .toolUse name input => some (name, input)
        | _ => none).map (fun u => extract_path_from_tool_input u.2) := by
  induction blocks with
  | nil => rfl
  | cons b bs ih => cases b <;> simp [blockUsePath, List.filterMap_cons, ih]

/-- User and non-assistant entries do not change the call list. -/
theorem processEntry_callsRev_of_ne (st : ExtSt) (entry : SEntry)
    (h : entry.etype ≠ "assistant") : (processEntry st entry).callsRev = st.callsRev := by
  unfold processEntry
  by_cases hu : entry.etype == "user"
  · rw [if_pos hu]
    dsimp only
    split <;> rfl
  · rw [if_neg hu, if_pos h]

/-- Unfolding of an assistant entry's processing. -/
theorem processEntry_assistant (st : ExtSt) (entry : SEntry)
    (h : entry.etype = "assistant") :
    processEntry st entry =
      (extract_tool_blocks_from_message entry.content).foldl (processBlock entry.timestamp)
        ((extract_text_blocks_from_message entry.content).foldl
          (fun s txt =>
            { s with
                commits := s.commits ++ extract_commits_from_text txt,
                assistantText := s.assistantText ++ [⟨entry.timestamp, truncate_text txt 2000⟩] })
          st) := by
  unfold processEntry
  have hu : (entry.etype == "user") = false := by simp [h]
  rw [hu]
  simp only [Bool.false_eq_true, if_false, ite_false]
  rw [if_neg (not_not_intro h)]

/-- The entry fold records exactly the within-window tool_use path hints
(in reverse, since the call list is accumulated in reverse). -/
theorem entriesFold_pathHints : ∀ (entries : List SEntry) (st : ExtSt),
    (entries.foldl processEntry st).callsRev.map (fun c => c.pathHint) =
      ((within_tool_uses entries).map fun u => extract_path_from_tool_input u.2).reverse ++
        st.callsRev.map (fun c => c.pathHint) := by
  intro entries
  induction entries with
  | nil => intro st; simp [within_tool_uses]
  | cons entry rest ih =>
      intro st
      have hstep := ih (processEntry st entry)
      simp only [List.foldl_cons] at hstep ⊢
      rw [hstep]
      by_cases ha : entry.etype = "assistant"
      · rw [processEntry_assistant st entry ha, blocksFold_pathHints, textFold_callsRev,
          filterMap_blockUsePath_eq]
        simp [within_tool_uses, ha, List.append_assoc]
      · rw [processEntry_callsRev_of_ne st entry ha]
        simp [within_tool_uses, ha]

/-- Modified-set contribution of one block: a tool_use contributes its
patch-modified files and its path hint (every other block none). -/
def blockModContribution (b : CBlock) : Option (List String) :=
  match b with
  | .toolUse name input =>
      some ((patchDataOf (toolNameOf name) input).1.modified ++
        (match extract_path_from_tool_input input with
         | some p => [p]
         | none => []))
  | _ => none

/-- A tool_result step does not change the modified accumulator. -/
theorem processToolResult_modifiedAcc (ts content : String) (ie : Option Bool) (st : ExtSt) :
    (processToolResult ts content ie st).modifiedAcc = st.modifiedAcc := by
  unfold processToolResult
  cases hc : st.callsRev with
  | nil =>
      simp only [hc]
      split <;> rfl
  | cons pending rest =>
      simp only [hc]
      by_cases hres : pending.result = none <;>
        by_cases hit : (pending.isTest = true ∧ cmdTruthy pending.cmd = true) <;>
          by_cases herr : (mkResultObj ts content ie (pending :: rest)).isErr = true <;>
            simp [hres, hit, herr]

/-- The tool-block fold appends exactly the per-block modified
contributions, in order. -/
theorem blocksFold_modifiedAcc (ts : String) : ∀ (blocks : List CBlock) (st : ExtSt),
    (blocks.foldl (processBlock ts) st).modifiedAcc =
      st.modifiedAcc ++ (blocks.filterMap blockModContribution).join := by
  intro blocks
  induction blocks with
  | nil => intro st; simp
  | cons b bs ih =>
      intro st
      cases b with
      | text t => simpa [blockModContribution] using ih st
      | thinking t => simpa [blockModContribution] using ih st
      | toolUse name input =>
          have h2 := ih (processToolUse ts name input st)
          simp only [List.foldl_cons, processBlock] at h2 ⊢
          rw [h2]
          have hmod : (processToolUse ts name input st).modifiedAcc =
              st.modifiedAcc ++ ((patchDataOf (toolNameOf name) input).1.modified ++
                (match extract_path_from_tool_input input with
                 | some p => [p]
                 | none => [])) := by
            simp [processToolUse, List.append_assoc]
          rw [hmod]
          simp [blockModContribution, List.filterMap_cons, List.append_assoc]
      | toolResult content ie =>
          have h2 := ih (processToolResult ts content ie st)
          simp only [List.foldl_cons, processBlock] at h2 ⊢
          rw [h2, processToolResult_modifiedAcc]
          simp [blockModContribution, List.filterMap_cons]

/-- The text-block fold does not change the modified accumulator. -/
theorem textFold_modifiedAcc (ts : String) : ∀ (texts : List String) (st : ExtSt),
    ((texts.foldl (fun s txt =>
      { s with
          commits := s.commits ++ extract_commits_from_text txt,
          assistantText := s.assistantText ++ [⟨ts, truncate_text txt 2000⟩] }) st)).modifiedAcc =
      st.modifiedAcc := by
  intro texts
  induction texts with
  | nil => intro st; rfl
  | cons t rest ih => intro st; exact ih _

/-- Modified-set contribution of one entry. -/
def spec_entry_modified (entry : SEntry) : List String :=
  if entry.etype = "assistant" then
    ((extract_tool_blocks_from_message entry.content).filterMap blockModContribution).join
  else []

/-- One entry appends exactly its modified contribution. -/
theorem processEntry_modifiedAcc (st : ExtSt) (entry : SEntry) :
    (processEntry st entry).modifiedAcc = st.modifiedAcc ++ spec_entry_modified entry := by
  unfold spec_entry_modified
  by_cases ha : entry.etype = "assistant"
  · rw [processEntry_assistant st entry ha, blocksFold_modifiedAcc, textFold_modifiedAcc,
      if_pos ha]
  · rw [if_neg ha, List.append_nil]
    unfold processEntry
    by_cases hu : entry.etype == "user"
    · rw [if_pos hu]
      dsimp only
      split <;> rfl
    · rw [if_neg hu, if_pos ha]

/-- The entry fold appends exactly the per-entry modified contributions. -/
theorem entriesFold_modifiedAcc : ∀ (entries : List SEntry) (st : ExtSt),
    (entries.foldl processEntry st).modifiedAcc =
      st.modifiedAcc ++ (entries.map spec_entry_modified).join := by
  intro entries
  induction entries with
  | nil => intro st; simp
  | cons entry rest ih =>
      intro st
      simp only [List.foldl_cons, List.map_cons, List.join]
      rw [ih, processEntry_modifiedAcc]
      simp [List.append_assoc]

/-- Any within-window tool_use path lands in the accumulated modified
contributions. -/
theorem mem_modified_join_of_use (entries : List SEntry) (u : String × TInput)
    (hu : u ∈ within_tool_uses entries) (p : String)
    (hp : extract_path_from_tool_input u.2 = some p) :
    p ∈ (entries.map spec_entry_modified).join := by
  unfold within_tool_uses at hu
  rw [List.mem_join] at hu
  obtain ⟨L, hL, huL⟩ := hu
  rw [List.mem_map] at hL
  obtain ⟨entry, hentry, rfl⟩ := hL
  by_cases ha : entry.etype = "assistant"
  · rw [if_pos ha, List.mem_filterMap] at huL
    obtain ⟨b, hb, hub⟩ := huL
    cases b with
    | toolUse name input =>
        have hu2 : u = (name, input) := by
          simpa using hub.symm
        subst hu2
        rw [List.mem_join]
        refine ⟨spec_entry_modified entry, List.mem_map_of_mem _ hentry, ?_⟩
        unfold spec_entry_modified
        rw [if_pos ha, List.mem_join]
        refine ⟨(patchDataOf (toolNameOf name) input).1.modified ++
          (match extract_path_from_tool_input input with
           | some q => [q]
           | none => []), ?_, ?_⟩
        · exact List.mem_filterMap.mpr ⟨.toolUse name input, hb, rfl⟩
        · simp only at hp
          rw [hp]
          simp
    | text t => simp [blockUsePath] at hub
    | thinking t => simp at hub
    | toolResult c ie => simp at hub
  · rw [if_neg ha] at huL
    simp at huL

/-- Claim C10: each within-window tool_use's extracted input path (under
the keys path/file_path/filepath/filename, regardless of the tool's name)
is recorded as the corresponding call's path_hint, in order; every such
path lands in the digest's modified set; and the created/modified/deleted
sets of the digest are deduplicated and sorted. -/
theorem path_hint_modified_invariant (parseTs : String → Option Int) (loglines : List SEntry)
    (sf start endS : String) (pp s e : Int) (d : Digest)
    (hs : parseTs start = some s) (he : parseTs endS = some e)
    (hd : build_changelog_digest parseTs loglines sf start endS pp = some d) :
    (d.toolCalls.map (fun c => c.pathHint) =
      (within_tool_uses (sliceWindow parseTs s e loglines).2).map
        (fun u => extract_path_from_tool_input u.2)) ∧
    (∀ u ∈ within_tool_uses (sliceWindow parseTs s e loglines).2, ∀ p,
      extract_path_from_tool_input u.2 = some p → p ∈ d.touchedFiles.modified) ∧
    (List.Sorted (fun a b => strLe a b = true) d.touchedFiles.created ∧
      d.touchedFiles.created.Nodup) ∧
    (List.Sorted (fun a b => strLe a b = true) d.touchedFiles.modified ∧
      d.touchedFiles.modified.Nodup) ∧
    (List.Sorted (fun a b => strLe a b = true) d.touchedFiles.deleted ∧
      d.touchedFiles.deleted.Nodup) := by
  unfold build_changelog_digest at hd
  rw [hs, he] at hd
  have hd2 := Option.some.inj hd
  subst hd2
  refine ⟨?_, ?_, ⟨sortedDedup_sorted _, sortedDedup_nodup _⟩,
    ⟨sortedDedup_sorted _, sortedDedup_nodup _⟩, ⟨sortedDedup_sorted _, sortedDedup_nodup _⟩⟩
  · show ((List.foldl processEntry ExtSt.empty
        (sliceWindow parseTs s e loglines).2).callsRev.reverse.map (fun c => c.pathHint)) = _
    rw [List.map_reverse, entriesFold_pathHints]
    have : ExtSt.empty.callsRev = [] := rfl
    rw [this]
    simp
  · intro u hu p hp
    have hmem := mem_modified_join_of_use (sliceWindow parseTs s e loglines).2 u hu p hp
    show p ∈ sortedDedup (List.foldl processEntry ExtSt.empty
      (sliceWindow parseTs s e loglines).2).modifiedAcc
    rw [mem_sortedDedup, entriesFold_modifiedAcc]
    have : ExtSt.empty.modifiedAcc = [] := rfl
    rw [this, List.nil_append]
    exact hmem

/-- Witness for the path-hint theorem: a read-only tool call with a
`path` input marks the file as modified. -/
theorem path_hint_modified_invariant_witness :
    "a.txt" ∈ ((build_changelog_digest pyIntParse
      [⟨"assistant", "1", [.toolUse "read_file" (.idict [("path", .s "a.txt")])]⟩]
      "codex_rollout" "0" "10" 3).get (by decide)).touchedFiles.modified :=
  (path_hint_modified_invariant pyIntParse
    [⟨"assistant", "1", [.toolUse "read_file" (.idict [("path", .s "a.txt")])]⟩]
    "codex_rollout" "0" "10" 3 0 10 _ (by decide) (by decide)
    (Option.some_get _).symm).2.1
    ("read_file", .idict [("path", .s "a.txt")]) (by decide) "a.txt" (by decide)

/-- A successfully validated changelog entry carries the computed run id. -/
theorem changelogEntryBody_runId (parseTs : String → Option Int) (loglines : List SEntry)
    (sf evaluator : String) (runEval : PromptDigest → Except String EvalOut)
    (key : RunKey) (pp : Int) (rid : String) (entry : CEntry)
    (h : changelogEntryBody parseTs loglines sf evaluator runEval key pp rid = .ok entry) :
    entry.runId = rid := by
  unfold changelogEntryBody at h
  simp only [bind, Except.bind] at h
  repeat' split at h
  all_goals simp_all
  all_goals (cases h; rfl)

/-- Entries whose run id never loads cannot carry it. -/
theorem countRunId_zero_of_not_loaded (l : List CEntry) (rid : String)
    (hrid : rid ≠ "") (h : rid ∉ load_existing_run_ids l) : countRunId l rid = 0 := by
  unfold countRunId
  rw [List.length_eq_zero, List.filter_eq_nil]
  intro e he
  intro hbeq
  apply h
  have heq : e.runId = rid := by simpa using hbeq
  unfold load_existing_run_ids
  exact List.mem_filterMap.mpr ⟨e, he, by rw [heq]; simp [hrid]⟩

/-- Claim C1: duplicate run ids short-circuit to a no-op "exists" outcome;
any failure after the existence check appends only a failure record
(entries files untouched); and after a successful append a second
invocation with the same key against the resulting ledger short-circuits,
leaving exactly one entries-ledger line with that run id. -/
theorem changelog_pipeline_idempotent
    (computeRunId : RunKey → String) (parseTs : String → Option Int)
    (loglines : List SEntry) (sf evaluator : String)
    (runEval : PromptDigest → Except String EvalOut) (halt : Bool)
    (key : RunKey) (pp : Int) (st : LedgerState)
    (parseTs2 : String → Option Int) (loglines2 : List SEntry) (sf2 evaluator2 : String)
    (runEval2 : PromptDigest → Except String EvalOut) (halt2 : Bool) (pp2 : Int)
    (hrid : computeRunId key ≠ "") :
    (computeRunId key ∈
        load_existing_run_ids st.entriesActor ++ load_existing_run_ids st.entriesRoot ++
          load_existing_run_ids st.entriesLegacy →
      generate_and_append_changelog_entry computeRunId parseTs loglines sf evaluator
          runEval halt key pp st =
        (st, ⟨false, computeRunId key, "exists"⟩)) ∧
    ((generate_and_append_changelog_entry computeRunId parseTs loglines sf evaluator
        runEval halt key pp st).2.status = "failed" ∨
     (generate_and_append_changelog_entry computeRunId parseTs loglines sf evaluator
        runEval halt key pp st).2.status = "rate_limited" →
      (generate_and_append_changelog_entry computeRunId parseTs loglines sf evaluator
        runEval halt key pp st).1.entriesActor = st.entriesActor ∧
      (generate_and_append_changelog_entry computeRunId parseTs loglines sf evaluator
        runEval halt key pp st).1.entriesRoot = st.entriesRoot ∧
      (generate_and_append_changelog_entry computeRunId parseTs loglines sf evaluator
        runEval halt key pp st).1.entriesLegacy = st.entriesLegacy ∧
      ∃ e, (generate_and_append_changelog_entry computeRunId parseTs loglines sf evaluator
        runEval halt key pp st).1.failures =
          st.failures ++ [⟨computeRunId key, truncate_text_middle e 2000⟩]) ∧
    ((generate_and_append_changelog_entry computeRunId parseTs loglines sf evaluator
        runEval halt key pp st).2.status = "appended" →
      countRunId st.entriesActor (computeRunId key) = 0 ∧
      countRunId (generate_and_append_changelog_entry computeRunId parseTs loglines sf evaluator
        runEval halt key pp st).1.entriesActor (computeRunId key) = 1 ∧
      generate_and_append_changelog_entry computeRunId parseTs2 loglines2 sf2 evaluator2
          runEval2 halt2 key pp2
          (generate_and_append_changelog_entry computeRunId parseTs loglines sf evaluator
            runEval halt key pp st).1 =
        ((generate_and_append_changelog_entry computeRunId parseTs loglines sf evaluator
          runEval halt key pp st).1, ⟨false, computeRunId key, "exists"⟩)) := by
  by_cases hmem : computeRunId key ∈
      load_existing_run_ids st.entriesActor ++ load_existing_run_ids st.entriesRoot ++
        load_existing_run_ids st.entriesLegacy
  · have hres : generate_and_append_changelog_entry computeRunId parseTs loglines sf evaluator
        runEval halt key pp st = (st, ⟨false, computeRunId key, "exists"⟩) := by
      unfold generate_and_append_changelog_entry
      rw [if_pos hmem]
    refine ⟨fun _ => hres, ?_, ?_⟩
    · rw [hres]
      rintro (hs | hs) <;> simp at hs
    · rw [hres]
      intro hs
      simp at hs
  · have hcount0 : countRunId st.entriesActor (computeRunId key) = 0 := by
      apply countRunId_zero_of_not_loaded _ _ hrid
      intro hmem2
      exact hmem (List.mem_append.mpr (Or.inl (List.mem_append.mpr (Or.inl hmem2))))
    cases hbody : changelogEntryBody parseTs loglines sf evaluator runEval key pp
        (computeRunId key) with
    | ok entry =>
        have hres : generate_and_append_changelog_entry computeRunId parseTs loglines sf
            evaluator runEval halt key pp st =
            ({ st with entriesActor := st.entriesActor ++ [entry] },
              ⟨true, computeRunId key, "appended"⟩) := by
          unfold generate_and_append_changelog_entry
          rw [if_neg hmem, hbody]
        have hrid2 : entry.runId = computeRunId key :=
          changelogEntryBody_runId _ _ _ _ _ _ _ _ _ hbody
        refine ⟨fun hm => absurd hm hmem, ?_, ?_⟩
        · rw [hres]
          rintro (hs | hs) <;> simp at hs
        · intro _
          have hcount1 : countRunId (st.entriesActor ++ [entry]) (computeRunId key) = 1 := by
            unfold countRunId at hcount0 ⊢
            rw [List.filter_append]
            rw [List.length_eq_zero] at hcount0
            rw [hcount0]
            simp [hrid2]
          have hmem2 : computeRunId key ∈
              load_existing_run_ids (st.entriesActor ++ [entry]) := by
            unfold load_existing_run_ids
            rw [List.filterMap_append]
            refine List.mem_append.mpr (Or.inr ?_)
            simp [hrid2, hrid]
          have hsecond : generate_and_append_changelog_entry computeRunId parseTs2 loglines2
              sf2 evaluator2 runEval2 halt2 key pp2
              ({ st with entriesActor := st.entriesActor ++ [entry] }) =
              ({ st with entriesActor := st.entriesActor ++ [entry] },
                ⟨false, computeRunId key, "exists"⟩) := by
            unfold generate_and_append_changelog_entry
            rw [if_pos (List.mem_append.mpr (Or.inl (List.mem_append.mpr (Or.inl hmem2))))]
          rw [hres]
          exact ⟨hcount0, hcount1, hsecond⟩
    | error e =>
        have hres : generate_and_append_changelog_entry computeRunId parseTs loglines sf
            evaluator runEval halt key pp st =
            (if halt && looks_like_usage_limit_error e then
              ({ st with failures := st.failures ++
                  [⟨computeRunId key, truncate_text_middle e 2000⟩] },
                ⟨false, computeRunId key, "rate_limited"⟩)
             else
              ({ st with failures := st.failures ++
                  [⟨computeRunId key, truncate_text_middle e 2000⟩] },
                ⟨false, computeRunId key, "failed"⟩)) := by
          unfold generate_and_append_changelog_entry
          rw [if_neg hmem, hbody]
        refine ⟨fun hm => absurd hm hmem, ?_, ?_⟩
        · intro _
          rw [hres]
          split <;> exact ⟨rfl, rfl, rfl, e, rfl⟩
        · intro hs
          rw [hres] at hs
          split at hs <;> simp at hs

/-- Witness for the pipeline theorem: a failing evaluator leaves the
entries ledger untouched. -/
theorem changelog_pipeline_idempotent_witness :
    (generate_and_append_changelog_entry (fun _ => "runid1") pyIntParse []
      "codex_rollout" "codex" (fun _ => .error "boom") false
      ⟨"codex", "0", "10", "sd", "src"⟩ 3 ⟨[], [], [], []⟩).1.entriesActor = [] :=
  ((changelog_pipeline_idempotent (fun _ => "runid1") pyIntParse []
    "codex_rollout" "codex" (fun _ => .error "boom") false
    ⟨"codex", "0", "10", "sd", "src"⟩ 3 ⟨[], [], [], []⟩
    pyIntParse [] "codex_rollout" "codex" (fun _ => .error "boom") false 3
    (by decide)).2.1 (Or.inl (by decide))).1

/-- Claim C6, counterexample: 17 items, cap 16, prompt bookends (head 5,
tail 10), all scores tied at 0.  The claim (ties broken by earliest
original index) predicts that item 5 fills the one remaining slot; the
code sorts descending on `(score, index)` and keeps item 6 instead. -/
theorem select_budget_items_counterexample :
    select_budget_items (List.range 17) 16 5 10 (fun _ => 0) =
      [0, 1, 2, 3, 4, 6, 7, 8, 9, 10, 11, 12, 13, 14, 15, 16] := by
  decide

/-- Totality of the descending `(score, index)` comparison. -/
theorem scoredGe_total (a b : Int × Nat) : scoredGe a b = true ∨ scoredGe b a = true := by
  unfold scoredGe
  by_cases h1 : b.1 < a.1
  · left; simp [h1]
  · by_cases h2 : a.1 < b.1
    · right; simp [h2]
    · have he : a.1 = b.1 := by omega
      by_cases h3 : b.2 ≤ a.2
      · left; simp [h1, he, h3]
      · right
        have h4 : a.2 ≤ b.2 := by omega
        simp [h2, he.symm, h4]

/-- Transitivity of the descending `(score, index)` comparison. -/
theorem scoredGe_trans (a b c : Int × Nat) (hab : scoredGe a b = true)
    (hbc : scoredGe b c = true) : scoredGe a c = true := by
  unfold scoredGe at hab hbc ⊢
  by_cases h1 : b.1 < a.1
  · by_cases h2 : c.1 < b.1
    · simp [show c.1 < a.1 by omega]
    · simp only [h2, ite_false] at hbc
      by_cases he : b.1 = c.1
      · simp [show c.1 < a.1 by omega]
      · simp [he] at hbc
  · simp only [h1, ite_false] at hab
    by_cases he : a.1 = b.1
    · rw [show (a.1 == b.1) = true by simp [he]] at hab
      simp only [if_true, ite_true, decide_eq_true_eq] at hab
      by_cases h2 : c.1 < b.1
      · simp [show c.1 < a.1 by omega]
      · simp only [h2, ite_false] at hbc
        by_cases he2 : b.1 = c.1
        · rw [show (b.1 == c.1) = true by simp [he2]] at hbc
          simp only [if_true, ite_true, decide_eq_true_eq] at hbc
          have hlt : ¬ c.1 < a.1 := by omega
          simp [hlt, show (a.1 == c.1) = true by simp [he.trans he2], show c.2 ≤ a.2 by omega]
        · simp [he2] at hbc
    · simp [he] at hab

/-- Claim C6, amended: for a positive cap strictly below the list length,
the selection keeps exactly the head and tail bookend indices plus a set of
middle scored pairs `sel` that fills the remaining capacity (up to
exhaustion of the middle); every selected pair dominates every unselected
middle pair in the descending `(score, original index)` order - so ties are
broken toward the LATEST original index, not the earliest - and the kept
items are emitted in their original relative order by an ascending-index
extraction. -/
theorem select_budget_items_amended {α : Type} (items : List α) (max_items : Int)
    (always_head always_tail : Nat) (score_fn : α → Int)
    (h0 : 0 < max_items) (h1 : max_items < (items.length : Int)) :
    ∃ sel : List (Int × Nat),
      (∀ p ∈ sel, p ∈ budgetScored items always_head always_tail score_fn) ∧
      sel.length =
        min (max_items - budgetKeep0Count items.length always_head always_tail).toNat
          (budgetScored items always_head always_tail score_fn).length ∧
      (∀ p ∈ sel, ∀ q ∈ budgetScored items always_head always_tail score_fn,
        q ∉ sel → scoredGe p q = true) ∧
      select_budget_items items max_items always_head always_tail score_fn =
        (items.enum.filter (fun p =>
          budgetKeep0 items.length always_head always_tail p.1 ||
            (sel.map (·.2)).contains p.1)).map (·.2) := by
  classical
  have hmle : ¬ max_items ≤ 0 := by omega
  have hlen : ¬ (items.length : Int) ≤ max_items := by omega
  haveI instTot : IsTotal (Int × Nat) (fun a b => scoredGe a b = true) :=
    ⟨fun a b => scoredGe_total a b⟩
  haveI instTrans : IsTrans (Int × Nat) (fun a b => scoredGe a b = true) :=
    ⟨fun a b c => scoredGe_trans a b c⟩
  by_cases hpos :
      (max_items - budgetKeep0Count items.length always_head always_tail : Int) > 0
  · refine ⟨((budgetScored items always_head always_tail score_fn).insertionSort
        (fun a b => scoredGe a b = true)).take
        (max_items - budgetKeep0Count items.length always_head always_tail).toNat,
      ?_, ?_, ?_, ?_⟩
    · intro p hp
      exact (List.perm_insertionSort _ _).mem_iff.mp (List.mem_of_mem_take hp)
    · rw [List.length_take, (List.perm_insertionSort _ _).length_eq]
    · intro p hp q hq hqn
      have hq2 : q ∈ ((budgetScored items always_head always_tail score_fn).insertionSort
          (fun a b => scoredGe a b = true)) :=
        (List.perm_insertionSort _ _).mem_iff.mpr hq
      rw [← List.take_append_drop
        (max_items - budgetKeep0Count items.length always_head always_tail).toNat
        ((budgetScored items always_head always_tail score_fn).insertionSort
          (fun a b => scoredGe a b = true))] at hq2
      rcases List.mem_append.mp hq2 with h | h
      · exact absurd h hqn
      · have hs : List.Sorted (fun a b => scoredGe a b = true)
            (((budgetScored items always_head always_tail score_fn).insertionSort
              (fun a b => scoredGe a b = true)).take
                (max_items - budgetKeep0Count items.length always_head always_tail).toNat ++
             ((budgetScored items always_head always_tail score_fn).insertionSort
              (fun a b => scoredGe a b = true)).drop
                (max_items - budgetKeep0Count items.length always_head always_tail).toNat) := by
          rw [List.take_append_drop]
          exact List.sorted_insertionSort _ _
        exact (List.pairwise_append.mp hs).2.2 p hp q h
    · show select_budget_items items max_items always_head always_tail score_fn = _
      unfold select_budget_items
      rw [if_neg hmle, if_neg hlen]
      dsimp only
      rw [if_pos hpos]
  · refine ⟨[], ?_, ?_, ?_, ?_⟩
    · intro p hp; cases hp
    · have h2 : (max_items - budgetKeep0Count items.length always_head always_tail).toNat = 0 :=
        Int.toNat_eq_zero.mpr (by omega)
      rw [h2]
      simp
    · intro p hp; cases hp
    · show select_budget_items items max_items always_head always_tail score_fn = _
      unfold select_budget_items
      rw [if_neg hmle, if_neg hlen]
      dsimp only
      rw [if_neg hpos]
      rfl

/-- Witness for the amended C6 theorem at a concrete input: four items, cap
three, one head and one tail bookend. -/
theorem select_budget_items_amended_witness :
    (0 : Int) < 3 ∧ (3 : Int) < ((List.range 4).length : Int) ∧
    ∃ sel : List (Int × Nat),
      (∀ p ∈ sel, p ∈ budgetScored (List.range 4) 1 1 (fun x => (x : Int))) ∧
      sel.length =
        min ((3 : Int) - budgetKeep0Count (List.range 4).length 1 1).toNat
          (budgetScored (List.range 4) 1 1 (fun x => (x : Int))).length ∧
      (∀ p ∈ sel, ∀ q ∈ budgetScored (List.range 4) 1 1 (fun x => (x : Int)),
        q ∉ sel → scoredGe p q = true) ∧
      select_budget_items (List.range 4) 3 1 1 (fun x => (x : Int)) =
        ((List.range 4).enum.filter (fun p =>
          budgetKeep0 (List.range 4).length 1 1 p.1 ||
            (sel.map (·.2)).contains p.1)).map (·.2) :=
  ⟨by decide, by decide,
    select_budget_items_amended (List.range 4) 3 1 1 (fun x => (x : Int))
      (by decide) (by decide)⟩

/-!
Claim C3 support: sublist monotonicity of the selection and serialization
layers, and the cap-state trajectory of the shrink loop.
-/

/-- Cap-state trajectory of the shrink loop: iterate `capsStep`, staying
put once every knob is at its floor. -/
def capsSeq (caps0 : BudgetCaps) : Nat → BudgetCaps
  | 0 => caps0
  | k + 1 =>
      match capsStep (capsSeq caps0 k) with
      | some c => c
      | none => capsSeq caps0 k

/-- Digest separating the six loop passes from the floor configuration:
eleven tool errors and nothing else, so only the tool-error knob changes
the serialized output. -/
def c3Digest : Digest :=
  { sourceFormat := "codex_rollout", windowStart := "2026-01-01T00:00:00Z",
    windowEnd := "2026-01-01T01:00:00Z", priorUserPrompts := [], userPrompts := [],
    assistantText := [], toolCalls := [],
    toolErrors := List.replicate 11 ⟨"t", false, none, none⟩,
    touchedFiles := ⟨[], [], [], []⟩, tests := [], commits := [] }

/-- A shorter take is a sublist of a longer take. -/
theorem take_sublist_take {α : Type} {k j : Nat} (h : k ≤ j) (l : List α) :
    List.Sublist (l.take k) (l.take j) := by
  have h1 := List.take_sublist k (l.take j)
  rwa [List.take_take, min_eq_left h] at h1

/-- A shorter final segment is a sublist of a longer one. -/
theorem takeLastL_sublist_of_le {α : Type} (l : List α) {k j : Nat} (h : k ≤ j) :
    List.Sublist (takeLastL l k) (takeLastL l j) := by
  unfold takeLastL
  have h2 : l.length - k = (l.length - j) + ((l.length - k) - (l.length - j)) := by omega
  rw [h2, ← List.drop_drop]
  exact List.drop_sublist _ _

/-- The budget selection returns a sublist of its input. -/
theorem select_budget_items_sublist {α : Type} (items : List α) (max_items : Int)
    (always_head always_tail : Nat) (score_fn : α → Int) :
    List.Sublist (select_budget_items items max_items always_head always_tail score_fn) items := by
  unfold select_budget_items
  split
  · exact List.nil_sublist _
  · split
    · exact List.Sublist.refl _
    · dsimp only
      have hs : List.Sublist
          (items.enum.filter (fun p =>
            budgetKeep0 items.length always_head always_tail p.1 ||
              (if max_items - (budgetKeep0Count items.length always_head always_tail : Int) > 0 then
                (((budgetScored items always_head always_tail score_fn).insertionSort
                  (fun a b => scoredGe a b = true)).take
                    (max_items - (budgetKeep0Count items.length always_head always_tail : Int)).toNat).map
                  (·.2)
              else []).contains p.1))
          items.enum := List.filter_sublist _
      have h2 := hs.map Prod.snd
      rw [List.enum_map_snd] at h2
      exact h2

/-- A smaller cap selects a sublist of what a larger cap selects. -/
theorem select_budget_items_mono {α : Type} (items : List α) {M N : Int}
    (always_head always_tail : Nat) (score_fn : α → Int) (hMN : M ≤ N) :
    List.Sublist (select_budget_items items M always_head always_tail score_fn)
      (select_budget_items items N always_head always_tail score_fn) := by
  by_cases h1 : M ≤ 0
  · have hM : select_budget_items items M always_head always_tail score_fn = [] := by
      unfold select_budget_items
      rw [if_pos h1]
    rw [hM]
    exact List.nil_sublist _
  · by_cases h2 : (items.length : Int) ≤ N
    · have hN : select_budget_items items N always_head always_tail score_fn = items := by
        unfold select_budget_items
        rw [if_neg (by omega : ¬ N ≤ 0), if_pos h2]
      rw [hN]
      exact select_budget_items_sublist items M always_head always_tail score_fn
    · have h3 : ¬ (items.length : Int) ≤ M := by omega
      unfold select_budget_items
      rw [if_neg h1, if_neg h3, if_neg (by omega : ¬ N ≤ 0), if_neg h2]
      dsimp only
      refine List.Sublist.map _ (List.monotone_filter_right _ ?_)
      intro a ha
      simp only [Bool.or_eq_true] at ha ⊢
      rcases ha with hk | hcont
      · exact Or.inl hk
      · right
        by_cases hr : M - (budgetKeep0Count items.length always_head always_tail : Int) > 0
        · rw [if_pos hr] at hcont
          have hrN : N - (budgetKeep0Count items.length always_head always_tail : Int) > 0 := by
            omega
          rw [if_pos hrN]
          have hsub : List.Sublist
              ((((budgetScored items always_head always_tail score_fn).insertionSort
                (fun a b => scoredGe a b = true)).take
                  (M - (budgetKeep0Count items.length always_head always_tail : Int)).toNat).map
                (·.2))
              ((((budgetScored items always_head always_tail score_fn).insertionSort
                (fun a b => scoredGe a b = true)).take
                  (N - (budgetKeep0Count items.length always_head always_tail : Int)).toNat).map
                (·.2)) :=
            List.Sublist.map _ (take_sublist_take (Int.toNat_le_toNat (by omega)) _)
          simp only [List.elem_iff] at hcont ⊢
          exact hsub.subset hcont
        · rw [if_neg hr] at hcont
          simp at hcont

/-- Each shrink step decreases the cap state pointwise. -/
theorem capsStep_le {c c' : BudgetCaps} (h : capsStep c = some c') :
    c'.user ≤ c.user ∧ c'.calls ≤ c.calls ∧ c'.assistant ≤ c.assistant ∧
      c'.errors ≤ c.errors := by
  unfold capsStep at h
  split_ifs at h with h1 h2 h3 h4
  · injection h with h
    subst h
    refine ⟨le_refl _, ?_, le_refl _, le_refl _⟩
    show max 50 (c.calls / 2) ≤ c.calls
    apply max_le <;> omega
  · injection h with h
    subst h
    refine ⟨?_, le_refl _, le_refl _, le_refl _⟩
    show max 15 (c.user - 5) ≤ c.user
    apply max_le <;> omega
  · injection h with h
    subst h
    exact ⟨le_refl _, le_refl _, by show (2 : Int) ≤ c.assistant; omega, le_refl _⟩
  · injection h with h
    subst h
    exact ⟨le_refl _, le_refl _, le_refl _, by show (10 : Int) ≤ c.errors; omega⟩

/-- Pointwise-smaller caps produce componentwise sublists from one
budgeting pass; the remaining digest components are unchanged. -/
theorem once_mono_components (digest : Digest) {c c' : BudgetCaps}
    (hu : c'.user ≤ c.user) (hc : c'.calls ≤ c.calls)
    (ha : c'.assistant ≤ c.assistant) (he : c'.errors ≤ c.errors) :
    List.Sublist (onceAt digest c').userPrompts (onceAt digest c).userPrompts ∧
    List.Sublist (onceAt digest c').assistantText (onceAt digest c).assistantText ∧
    List.Sublist (onceAt digest c').toolCalls (onceAt digest c).toolCalls ∧
    List.Sublist (onceAt digest c').toolErrors (onceAt digest c).toolErrors := by
  unfold onceAt budget_changelog_digest_once
  dsimp only
  refine ⟨?_, ?_, ?_, ?_⟩
  · exact select_budget_items_mono digest.userPrompts 5 10 _ hu
  · by_cases h1 : c'.assistant > 0
    · rw [if_pos h1, if_pos (by omega : c.assistant > 0)]
      exact takeLastL_sublist_of_le _ (Int.toNat_le_toNat ha)
    · rw [if_neg h1]
      exact List.nil_sublist _
  · exact (select_budget_items_mono digest.toolCalls 10 10 call_score hc).map _
  · by_cases h1 : c'.errors > 0
    · rw [if_pos h1, if_pos (by omega : c.errors > 0)]
      exact takeLastL_sublist_of_le _ (Int.toNat_le_toNat he)
    · rw [if_neg h1]
      exact List.nil_sublist _

/-- Length of a separator join of a cons. -/
theorem joinSepStr_cons_length (sep a : String) (l : List String) :
    (joinSepStr sep (a :: l)).length =
      a.length + (if l = [] then 0 else sep.length + (joinSepStr sep l).length) := by
  cases l with
  | nil => simp [joinSepStr]
  | cons b bs =>
      rw [if_neg (List.cons_ne_nil b bs)]
      show (a ++ sep ++ joinSepStr sep (b :: bs)).length = _
      simp only [String.length_append]
      omega

/-- Dropping the head of a join never lengthens it. -/
theorem joinSepStr_length_cons_le (sep a : String) (l : List String) :
    (joinSepStr sep l).length ≤ (joinSepStr sep (a :: l)).length := by
  rw [joinSepStr_cons_length]
  cases l with
  | nil => simp [joinSepStr]
  | cons b bs =>
      rw [if_neg (List.cons_ne_nil b bs)]
      omega

/-- A sublist serializes to at most the length of the full join. -/
theorem joinSepStr_length_le_of_sublist (sep : String) {l₁ l₂ : List String}
    (h : List.Sublist l₁ l₂) :
    (joinSepStr sep l₁).length ≤ (joinSepStr sep l₂).length := by
  induction h with
  | slnil => exact le_refl _
  | cons a hs ih => exact le_trans ih (joinSepStr_length_cons_le sep a _)
  | cons₂ a hs ih =>
      rename_i l₃ l₄
      rw [joinSepStr_cons_length, joinSepStr_cons_length]
      by_cases h1 : l₃ = []
      · rw [if_pos h1]
        split <;> omega
      · have h2 : l₄ ≠ [] := fun he => h1 (List.sublist_nil.mp (he ▸ hs))
        rw [if_neg h1, if_neg h2]
        omega

/-- Pointwise length bounds lift through a separator join of equal
shape. -/
theorem joinSepStr_length_le_of_forall₂ (sep : String) {l₁ l₂ : List String}
    (h : List.Forall₂ (fun a b => a.length ≤ b.length) l₁ l₂) :
    (joinSepStr sep l₁).length ≤ (joinSepStr sep l₂).length := by
  induction h with
  | nil => exact le_refl _
  | cons hab htail ih =>
      rw [joinSepStr_cons_length, joinSepStr_cons_length]
      cases htail with
      | nil => simpa using hab
      | cons h2 h3 =>
          rw [if_neg (List.cons_ne_nil _ _), if_neg (List.cons_ne_nil _ _)]
          omega

/-- Serialized-array length is monotone under sublists of the elements. -/
theorem jsonArr_length_le_of_sublist {α : Type} (f : α → String) {l₁ l₂ : List α}
    (h : List.Sublist l₁ l₂) :
    (jsonArr (l₁.map f)).length ≤ (jsonArr (l₂.map f)).length := by
  have h2 := joinSepStr_length_le_of_sublist ", " (h.map f)
  simp only [jsonArr, String.length_append]
  omega

/-- Serialized-object length is monotone under equal keys and pointwise
value-length bounds. -/
theorem jsonObj_length_le {fs₁ fs₂ : List (String × String)}
    (h : List.Forall₂ (fun a b => a.1 = b.1 ∧ a.2.length ≤ b.2.length) fs₁ fs₂) :
    (jsonObj fs₁).length ≤ (jsonObj fs₂).length := by
  have h2 : List.Forall₂ (fun a b => a.length ≤ b.length)
      (fs₁.map fun f => jsonStr f.1 ++ ": " ++ f.2)
      (fs₂.map fun f => jsonStr f.1 ++ ": " ++ f.2) := by
    induction h with
    | nil => exact .nil
    | cons hab htail ih =>
        refine .cons ?_ ih
        obtain ⟨hk, hv⟩ := hab
        simp only [String.length_append, hk]
        omega
  have h3 := joinSepStr_length_le_of_forall₂ ", " h2
  simp only [jsonObj, String.length_append]
  omega

/-- Serialized digest length is monotone: componentwise sublists on the
budgeted lists (other fields equal) never lengthen the JSON dump. -/
theorem dumpsBudgetedDigest_length_mono (d₁ d₂ : BudgetedDigest)
    (h0 : d₁.sourceFormat = d₂.sourceFormat) (h1 : d₁.windowStart = d₂.windowStart)
    (h2 : d₁.windowEnd = d₂.windowEnd) (h3 : d₁.priorUserPrompts = d₂.priorUserPrompts)
    (hu : List.Sublist d₁.userPrompts d₂.userPrompts)
    (ha : List.Sublist d₁.assistantText d₂.assistantText)
    (hc : List.Sublist d₁.toolCalls d₂.toolCalls)
    (he : List.Sublist d₁.toolErrors d₂.toolErrors)
    (h4 : d₁.touchedFiles = d₂.touchedFiles) (h5 : d₁.tests = d₂.tests)
    (h6 : d₁.commits = d₂.commits) :
    (dumpsBudgetedDigest d₁).length ≤ (dumpsBudgetedDigest d₂).length := by
  unfold dumpsBudgetedDigest
  apply jsonObj_length_le
  refine .cons ⟨rfl, le_refl _⟩ (.cons ⟨rfl, le_of_eq (by rw [h0])⟩
    (.cons ⟨rfl, le_of_eq (by rw [h1, h2])⟩ (.cons ⟨rfl, le_of_eq (by rw [h3])⟩
    (.cons ⟨rfl, ?_⟩ (.cons ⟨rfl, le_refl _⟩ .nil)))))
  apply jsonObj_length_le
  exact .cons ⟨rfl, jsonArr_length_le_of_sublist dumpsPrompt hu⟩
    (.cons ⟨rfl, jsonArr_length_le_of_sublist dumpsPrompt ha⟩
    (.cons ⟨rfl, jsonArr_length_le_of_sublist dumpsSlimCall hc⟩
    (.cons ⟨rfl, jsonArr_length_le_of_sublist dumpsResultObj he⟩
    (.cons ⟨rfl, le_of_eq (by rw [h4])⟩
    (.cons ⟨rfl, le_of_eq (by rw [h5])⟩
    (.cons ⟨rfl, le_of_eq (by rw [h6])⟩ .nil))))))

/-- One shrink step never increases the measured serialized size. -/
theorem budget_digest_size_mono (digest : Digest) (c c' : BudgetCaps)
    (h : capsStep c = some c') :
    budget_digest_size (onceAt digest c') ≤ budget_digest_size (onceAt digest c) := by
  obtain ⟨hu, hc, ha, he⟩ := capsStep_le h
  obtain ⟨s1, s2, s3, s4⟩ := once_mono_components digest hu hc ha he
  exact dumpsBudgetedDigest_length_mono _ _ rfl rfl rfl rfl s1 s2 s3 s4 rfl rfl rfl

/-- Shifting the cap trajectory past a successful first step. -/
theorem capsSeq_shift (caps0 c₁ : BudgetCaps) (h : capsStep caps0 = some c₁) :
    ∀ j, capsSeq caps0 (j + 1) = capsSeq c₁ j := by
  intro j
  induction j with
  | zero =>
      show (match capsStep (capsSeq caps0 0) with
        | some c => c
        | none => capsSeq caps0 0) = c₁
      rw [show capsSeq caps0 0 = caps0 from rfl, h]
  | succ n ih =>
      show (match capsStep (capsSeq caps0 (n + 1)) with
        | some c => c
        | none => capsSeq caps0 (n + 1)) = capsSeq c₁ (n + 1)
      rw [ih]
      rfl

/-- Characterization of the shrink loop at any fuel: it returns the pass
at some step `k` bounded by the fuel, every earlier pass was over budget
with a shrinkable knob, and an early stop means within budget or all
knobs at their floors. -/
theorem budgetLoopGo_spec (digest : Digest) (max_chars : Int) :
    ∀ (fuel : Nat) (caps : BudgetCaps),
      ∃ k, k ≤ fuel ∧
        budgetLoopGo digest max_chars fuel (onceAt digest caps) caps =
          onceAt digest (capsSeq caps k) ∧
        (∀ j, j < k →
          max_chars < (budget_digest_size (onceAt digest (capsSeq caps j)) : Int) ∧
            capsStep (capsSeq caps j) ≠ none) ∧
        (k < fuel →
          (budget_digest_size (onceAt digest (capsSeq caps k)) : Int) ≤ max_chars ∨
            capsStep (capsSeq caps k) = none) := by
  intro fuel
  induction fuel with
  | zero =>
      intro caps
      exact ⟨0, le_refl 0, rfl, fun j hj => absurd hj (Nat.not_lt_zero j),
        fun h => absurd h (lt_irrefl 0)⟩
  | succ n ih =>
      intro caps
      have hunf : budgetLoopGo digest max_chars (n + 1) (onceAt digest caps) caps =
          if (budget_digest_size (onceAt digest caps) : Int) ≤ max_chars then
            onceAt digest caps
          else
            match capsStep caps with
            | none => onceAt digest caps
            | some caps2 => budgetLoopGo digest max_chars n (onceAt digest caps2) caps2 := rfl
      by_cases hsize : (budget_digest_size (onceAt digest caps) : Int) ≤ max_chars
      · refine ⟨0, Nat.zero_le _, ?_, fun j hj => absurd hj (Nat.not_lt_zero j),
          fun _ => Or.inl hsize⟩
        rw [hunf, if_pos hsize]
        rfl
      · rcases hstep : capsStep caps with _ | c₂
        · refine ⟨0, Nat.zero_le _, ?_, fun j hj => absurd hj (Nat.not_lt_zero j),
            fun _ => Or.inr hstep⟩
          rw [hunf, if_neg hsize, hstep]
          rfl
        · obtain ⟨k', hk'le, heq, hall, hstop⟩ := ih c₂
          refine ⟨k' + 1, Nat.succ_le_succ hk'le, ?_, ?_, ?_⟩
          · rw [hunf, if_neg hsize, hstep, capsSeq_shift caps c₂ hstep k']
            exact heq
          · intro j hj
            cases j with
            | zero =>
                refine ⟨lt_of_not_le hsize, ?_⟩
                show capsStep caps ≠ none
                rw [hstep]
                exact fun h => Option.noConfusion h
            | succ j' =>
                rw [capsSeq_shift caps c₂ hstep j']
                exact hall j' (Nat.lt_of_succ_lt_succ hj)
          · intro hk
            rw [capsSeq_shift caps c₂ hstep k']
            exact hstop (Nat.lt_of_succ_lt_succ hk)

/-- Claim C3, counterexample: with the default knobs (30 prompts, 200
calls, 4 assistant texts, 20 errors) the floor configuration is seven
shrink steps away (two halvings of the call cap, three prompt
decrements, one assistant clamp, one error clamp), but the loop runs at
most six passes.  On a digest of eleven tool errors with a zero
character budget the loop returns the pass at caps (15, 50, 2, 20),
which still carries all eleven errors, while the floor configuration
(15, 50, 2, 10) would keep ten - so the returned digest is not the
floor-configuration digest. -/
theorem budget_floor_counterexample :
    (budget_changelog_digest c3Digest 0 30 200 4 20).toolErrors.length = 11 ∧
    (budget_changelog_digest_once c3Digest 15 50 2 10).toolErrors.length = 10 ∧
    budget_changelog_digest c3Digest 0 30 200 4 20 ≠
      budget_changelog_digest_once c3Digest 15 50 2 10 := by
  decide

/-- Claim C3, amended: for every digest and every character budget, the
shrink loop returns the budgeting pass at some cap state `capsSeq caps0 k`
with `k ≤ 6`, where the trajectory follows the fixed priority order (call
cap halved to a floor of 50, then prompt cap lowered by 5 to a floor of
15, then assistant text clamped to 2, then tool errors clamped to 10);
every pass before the returned one measured over budget with a knob still
shrinkable, stopping before pass 6 happens only when within budget or
when every knob is at its floor, and the serialized size is monotonically
non-increasing along the whole cap trajectory.  Because reaching the
floors from the default knobs takes seven steps, the loop can stop at a
non-floor configuration while still over budget. -/
theorem budget_shrink_amended (digest : Digest) (max_chars mu mc ma me : Int) :
    ∃ k, k ≤ 6 ∧
      budget_changelog_digest digest max_chars mu mc ma me =
        onceAt digest (capsSeq ⟨mu, mc, ma, me⟩ k) ∧
      (∀ j, j < k →
        max_chars < (budget_digest_size (onceAt digest (capsSeq ⟨mu, mc, ma, me⟩ j)) : Int) ∧
          capsStep (capsSeq ⟨mu, mc, ma, me⟩ j) ≠ none) ∧
      (k < 6 →
        (budget_digest_size (onceAt digest (capsSeq ⟨mu, mc, ma, me⟩ k)) : Int) ≤ max_chars ∨
          capsStep (capsSeq ⟨mu, mc, ma, me⟩ k) = none) ∧
      (∀ j, budget_digest_size (onceAt digest (capsSeq ⟨mu, mc, ma, me⟩ (j + 1))) ≤
        budget_digest_size (onceAt digest (capsSeq ⟨mu, mc, ma, me⟩ j))) := by
  obtain ⟨k, hk, heq, hall, hstop⟩ := budgetLoopGo_spec digest max_chars 6 ⟨mu, mc, ma, me⟩
  refine ⟨k, hk, heq, hall, hstop, ?_⟩
  intro j
  rcases hstep : capsStep (capsSeq ⟨mu, mc, ma, me⟩ j) with _ | c₂
  · have h2 : capsSeq ⟨mu, mc, ma, me⟩ (j + 1) = capsSeq ⟨mu, mc, ma, me⟩ j := by
      show (match capsStep (capsSeq ⟨mu, mc, ma, me⟩ j) with
        | some c => c
        | none => capsSeq ⟨mu, mc, ma, me⟩ j) = capsSeq ⟨mu, mc, ma, me⟩ j
      rw [hstep]
    rw [h2]
  · have h2 : capsSeq ⟨mu, mc, ma, me⟩ (j + 1) = c₂ := by
      show (match capsStep (capsSeq ⟨mu, mc, ma, me⟩ j) with
        | some c => c
        | none => capsSeq ⟨mu, mc, ma, me⟩ j) = c₂
      rw [hstep]
    rw [h2]
    exact budget_digest_size_mono digest _ _ hstep
